import Mathlib

/-! ## download-certificates: the worker pool, the store and the connection engine

The C sources embedded here are `src/download_cert.c` (`worker_thread` and the pool
`main` starts), `src/save_certificate.c` (`save_certificate`), `src/get_certificate.c`
(`wait_for_bio`, `download_certificate`) and `src/utils.c` (`sha256sum`,
`get_ssl_error`).

Conventions.
* A C string is modelled by its content, the characters before the terminating NUL
  (`CStr`); a `char *` that may be `NULL` is an `Option CStr`.
* C `int` values are `Int`; every value that occurs is far inside the 32 bit range
  except the return value of `snprintf`, whose overflow case is modelled.
* Library calls (libc, OpenSSL, the file system) are modelled by their documented
  behaviour; whatever the environment decides (allocation failures, the results of
  the connect step, of `select`, ...) is an explicit parameter.
* A loop that need not end takes a bound on its rounds and returns `none` when the
  bound is used up.
* The threads of the pool are a step machine: a schedule lists which worker takes the
  next atomic step, and what the world outside the worker decides during it.
* An output stream of stdio holds the bytes `fwrite` handed to it; they reach the file
  when `fclose` flushes the stream.
* The scan position of `strtok` is one static variable shared by all threads.
-/

namespace DownloadCert

set_option maxRecDepth 100000

/-- Content of a NUL-terminated C string. -/
abbrev CStr := List Char

/-- `#define DEFAULT_PORT "443"`. -/
def DEFAULT_PORT : CStr := ['4', '4', '3']

/-- `#define MAX_WORKERS 100`. -/
def MAX_WORKERS : Nat := 100

/-- `#define MAX_LINE_LENGTH 256`. -/
def MAX_LINE_LENGTH : Nat := 256

/-- `#define MAX_RESULT_LENGTH 2048`. -/
def MAX_RESULT_LENGTH : Nat := 2048

/-- Largest value of a C `int`. -/
def INT_MAX : Nat := 2147483647

/-! ## libc -/

/-- The libc call `strtok(s, delim)` on the string that starts at the scan position `s`
(for `strtok(NULL, delim)` this is the position saved by the previous call).
Leading delimiters are skipped; if nothing is left the result is `NULL` and the saved
position is the end of the string.  Otherwise the token runs up to the next delimiter,
which is overwritten by NUL, and the saved position is the character after it (or the
end of the string when the token ends there).  Returns the token and the string at the
saved position.  (libc keeps the saved position in static storage; here the caller
passes it on.) -/
def strtok (s delim : CStr) : Option CStr × CStr :=
  match s.dropWhile (fun c => delim.contains c) with
  | [] => (none, [])
  | c :: cs =>
    (some ((c :: cs).takeWhile (fun x => !delim.contains x)),
     ((c :: cs).dropWhile (fun x => !delim.contains x)).drop 1)

/-- Characters consumed by one `fgets` call that may store at most `k` characters:
reading stops after a newline, at end of file, or when `k` characters are stored. -/
def fgetsChunk : Nat → List Char → List Char
  | 0, _ => []
  | _, [] => []
  | k + 1, c :: cs => if c = '\n' then [c] else c :: fgetsChunk k cs

/-- The libc call `fgets(line, n, stream)` on the unread rest of the stream: `none` is
`NULL` (end of file and nothing read); otherwise the content of `line` as a C string
(what was stored, up to a stray NUL byte of the file) and the new unread rest. -/
def fgets (n : Nat) (stream : List Char) : Option (CStr × List Char) :=
  match stream with
  | [] => none
  | _ :: _ =>
    let chunk := fgetsChunk (n - 1) stream
    some (chunk.takeWhile (fun c => c != Char.ofNat 0), stream.drop chunk.length)

/-- The libc call `snprintf(buf, size, ...)` where `text` is the fully formatted output
and `old` the previous content of `buf`: at most `size - 1` characters are stored
(nothing when `size = 0`); the return value is the length of `text`, or `-1` when
that length does not fit an `int`. -/
def snprintf (old : CStr) (size : Nat) (text : CStr) : CStr × Int :=
  (if size = 0 then old else text.take (size - 1),
   if text.length ≤ INT_MAX then (text.length : Int) else -1)

/-- Conversion `%d` of an `int`. -/
def fmtD (n : Int) : CStr :=
  if n < 0 then '-' :: Nat.toDigits 10 n.natAbs else Nat.toDigits 10 n.toNat

/-- Conversion `%s`; glibc prints `(null)` for a `NULL` argument (the C standard
leaves that case undefined). -/
def fmtS (s : Option CStr) : CStr :=
  match s with
  | some t => t
  | none => "(null)".toList

/-! ## `worker_thread` (download_cert.c) -/

/-- The struct `worker_data_t` (the `delay` field only feeds `nanosleep` and is left
out). -/
structure worker_data_t where
  worker_id : Int
  output_dir : CStr
  timeout : Int
  overwrite : Bool
  deriving DecidableEq, Repr

/-- Lines 75-81 of `worker_thread`: `hostname = strtok(line, ":\n")`,
`port = strtok(NULL, "\n")`, and `port = DEFAULT_PORT` when `port == NULL`.  The second
call continues at the position `strtok` saved last.  That position is one static
variable of libc shared by all threads, and both calls run after `file_mutex` has been
released: `others` is what the `strtok` calls of the other workers, made between line 76
and line 77 of this worker, do to the saved position (the string found there), the
identity when no other thread calls `strtok` in between. -/
def worker_thread_parse (line : CStr) (others : CStr → CStr) : Option CStr × CStr :=
  let r1 := strtok line [':', '\n']
  let r2 := strtok (others r1.2) ['\n']
  (r1.1, match r2.1 with
         | some p => p
         | none => DEFAULT_PORT)

/-- Where a worker stands in lines 76-81 of `worker_thread`: about to run line 76 on
the line it read; between line 76 and line 77, with its `hostname`; or past line 81, with
`hostname` and `port`. -/
inductive ParsePc where
  | line76 (line : CStr)
  | line77 (hostname : Option CStr)
  | parsed (hostname : Option CStr) (port : CStr)
  deriving DecidableEq, Repr

/-- The next step of a worker in lines 76-81, given the string at the position `strtok`
saved last, `save`; returns the string at the position saved now.  Line 76 scans the
worker's own line; line 77 (with lines 79-81) scans from the saved position, whoever
saved it. -/
def worker_thread_parse_step (save : CStr) : ParsePc → CStr × ParsePc
  | ParsePc.line76 line =>
    ((strtok line [':', '\n']).2, ParsePc.line77 (strtok line [':', '\n']).1)
  | ParsePc.line77 hostname =>
    ((strtok save ['\n']).2,
     ParsePc.parsed hostname (match (strtok save ['\n']).1 with
                              | some p => p
                              | none => DEFAULT_PORT))
  | ParsePc.parsed hostname port => (save, ParsePc.parsed hostname port)

/-- Two workers in lines 76-81 of `worker_thread`, with the saved position of `strtok`,
the one static variable they share. -/
structure ParseRace where
  save : CStr
  first : ParsePc
  second : ParsePc
  deriving DecidableEq, Repr

/-- One step of the two workers: the second worker takes its next step when `w` is
`true`, the first worker otherwise. -/
def ParseRace.step (s : ParseRace) (w : Bool) : ParseRace :=
  if w then
    { save := (worker_thread_parse_step s.save s.second).1, first := s.first,
      second := (worker_thread_parse_step s.save s.second).2 }
  else
    { save := (worker_thread_parse_step s.save s.first).1,
      first := (worker_thread_parse_step s.save s.first).2, second := s.second }

/-- An interleaving of the two workers: they take their steps in the order of
`sched`. -/
def ParseRace.run (s : ParseRace) (sched : List Bool) : ParseRace :=
  sched.foldl ParseRace.step s

/-- Both workers about to run line 76, each on the line it read. -/
def ParseRace.start (first second : CStr) : ParseRace :=
  { save := [], first := ParsePc.line76 first, second := ParsePc.line76 second }

/-- The text of `"Worker %d: Attempting to connect to %s:%s..."`. -/
def attemptText (worker_id : Int) (hostname : Option CStr) (port : CStr) : CStr :=
  "Worker ".toList ++ fmtD worker_id ++ ": Attempting to connect to ".toList
    ++ fmtS hostname ++ ":".toList ++ port ++ "...".toList

/-- Arguments of one call `download_certificate(hostname, port, data->output_dir,
result_message, sizeof(result_message), data->timeout, data->overwrite,
data->worker_id)`. -/
structure Call where
  hostname : Option CStr
  port : CStr
  output_dir : CStr
  result_message : CStr
  max_length : Nat
  timeout : Int
  overwrite : Bool
  worker_id : Int
  deriving DecidableEq, Repr

/-- Lines 79-94 of `worker_thread`, given `hostname` and the result `port` of
`strtok(NULL, "\n")`: a `NULL` port becomes `DEFAULT_PORT`, the attempt message is
formatted, and the worker either `continue`s (`none`, after "Error formatting result
message") or calls `download_certificate` with the returned arguments. -/
def worker_thread_call (data : worker_data_t) (hostname port : Option CStr) : Option Call :=
  let port1 := match port with
    | some p => p
    | none => DEFAULT_PORT
  let r := snprintf [] MAX_RESULT_LENGTH (attemptText data.worker_id hostname port1)
  if r.2 < 0 ∨ r.2 ≥ (MAX_RESULT_LENGTH : Int) then none
  else some
    { hostname := hostname, port := port1, output_dir := data.output_dir,
      result_message := r.1, max_length := MAX_RESULT_LENGTH,
      timeout := data.timeout, overwrite := data.overwrite,
      worker_id := data.worker_id }

/-- Lines 75-94 of `worker_thread` for the line just read, the two `strtok` calls
running back to back. -/
def worker_thread_attempt (data : worker_data_t) (line : CStr) : Option Call :=
  worker_thread_call data (strtok line [':', '\n']).1
    (strtok (strtok line [':', '\n']).2 ['\n']).1

/-! ## `sha256sum` and `get_ssl_error` (utils.c) -/

/-- An `unsigned char`. -/
abbrev Byte := Fin 256

/-- A byte buffer. -/
abbrev Bytes := List Byte

/-- The OpenSSL constant `SHA256_DIGEST_LENGTH`. -/
def SHA256_DIGEST_LENGTH : Nat := 32

/-- `#define SHA256_HEX_LENGTH (SHA256_DIGEST_LENGTH * 2)`. -/
def SHA256_HEX_LENGTH : Nat := SHA256_DIGEST_LENGTH * 2

/-- `#define MAX_PATH_LENGTH 1024`. -/
def MAX_PATH_LENGTH : Nat := 1024

/-- The array `unsigned char hash[SHA256_DIGEST_LENGTH]` once `SHA256` has filled it. -/
structure Digest where
  bytes : List Byte
  size_eq : bytes.length = SHA256_DIGEST_LENGTH

/-- Conversion `%02x` of an unsigned value: lowercase hexadecimal digits, padded with
`0` on the left to a width of at least two. -/
def fmt02x (n : Nat) : CStr :=
  List.replicate (2 - (Nat.toDigits 16 n).length) '0' ++ Nat.toDigits 16 n

/-- The loop `for (i = 0; i < SHA256_DIGEST_LENGTH; i++)` of `sha256sum` over the bytes of
`hash` still to be printed: `snprintf(output + (i * 2), 3, "%02x", hash[i])` must return
`2`, otherwise the function returns `false` (`none`).  `out` holds the `2 * i`
characters written so far. -/
def sha256sum_loop : List Byte → CStr → Option CStr
  | [], out => some out
  | b :: bs, out =>
    if (snprintf [] 3 (fmt02x b.val)).2 ≠ 2 then none
    else sha256sum_loop bs (out ++ (snprintf [] 3 (fmt02x b.val)).1)

/-- The function `sha256sum(data, len, output, output_size)`; `SHA256` is the library
digest (`none` when it returns `NULL`), `data = none` is a `NULL` pointer.  The result
`none` is `false`; `some hex` is `true` with `hex` stored in `output`.  (`output` is
always a local array at the call site, so `output == NULL` is not represented.) -/
def sha256sum (SHA256 : Bytes → Option Digest) (data : Option Bytes) (output_size : Nat) :
    Option CStr :=
  match data with
  | none => none
  | some d =>
    if output_size < SHA256_DIGEST_LENGTH * 2 + 1 then none
    else
      match SHA256 d with
      | none => none
      | some hash => sha256sum_loop hash.bytes []

/-- The OpenSSL call `ERR_get_error()`: removes and returns the earliest error code of
the queue, or returns `0` when the queue is empty (error codes are never `0`). -/
def ERR_get_error (queue : List ℕ+) : Nat × List ℕ+ :=
  match queue with
  | [] => (0, [])
  | e :: rest => (e.val, rest)

/-- The OpenSSL call `ERR_error_string_n(e, buf, len)`: the text of the error code,
cut to `len - 1` characters; `errString` is the library's text table. -/
def ERR_error_string_n (errString : Nat → CStr) (e : Nat) (len : Nat) : CStr :=
  (errString e).take (len - 1)

/-- The text of `" error: %s"`. -/
def errorEntry (err_msg : CStr) : CStr := " error: ".toList ++ err_msg

/-- State of the loop of `get_ssl_error`. -/
structure ErrLoop where
  error_message : CStr
  current_length : Nat
  buffer_full : Bool
  queue : List ℕ+

/-- The loop `while ((err = ERR_get_error()) != 0 && !buffer_full)` of `get_ssl_error`.
Each evaluation of the condition pops the queue first (also when `buffer_full` then ends
the loop).  The body formats `" error: %s"` at offset `current_length` with
`max_length - current_length` bytes available. -/
def get_ssl_error_loop (errString : Nat → CStr) (max_length : Nat) :
    List ℕ+ → CStr → Nat → Bool → ErrLoop
  | [], msg, cur, full => ⟨msg, cur, full, []⟩
  | e :: rest, msg, cur, full =>
    if full then ⟨msg, cur, full, rest⟩
    else
      let err_msg := ERR_error_string_n errString e.val 256
      let r := snprintf (msg.drop cur) (max_length - cur) (errorEntry err_msg)
      if r.2 < 0 ∨ r.2.toNat ≥ max_length - cur then
        get_ssl_error_loop errString max_length rest (msg.take cur ++ r.1) cur true
      else
        get_ssl_error_loop errString max_length rest (msg.take cur ++ r.1)
          (cur + r.2.toNat) false

/-- The function `get_ssl_error(error_message, max_length)` on the error queue `queue`;
`error_message = none` is a `NULL` pointer.  Returns the `bool` result, the new content
of the buffer and the new queue. -/
def get_ssl_error (errString : Nat → CStr) (error_message : Option CStr) (max_length : Nat)
    (queue : List ℕ+) : Bool × Option CStr × List ℕ+ :=
  match error_message with
  | none => (false, none, queue)
  | some old =>
    if max_length = 0 then (false, some old, queue)
    else
      let l := get_ssl_error_loop errString max_length queue [] 0 false
      (!l.buffer_full, some l.error_message, l.queue)

/-! ## The file system seen by `save_certificate` -/

/-- The values of `errno` that `fopen` leaves in this model. -/
inductive Errno where
  | EEXIST
  | EACCES
  deriving DecidableEq, Repr

/-- The `fopen` modes used: `"w"` (create or truncate) and `"wx"` (exclusive create). -/
inductive Mode where
  | w
  | wx
  deriving DecidableEq, Repr

/-- State of the file system: the regular files with their content, and the paths the
process may not create or open for writing. -/
structure FileSys where
  files : CStr → Option Bytes
  denied : CStr → Bool

/-- The libc call `fopen(path, mode)`.  Mode `"wx"` fails with `EEXIST` when the
path exists (the atomic existence check of `O_CREAT | O_EXCL`, made before any access
check on the file); creation or opening for writing of a denied path fails with
`EACCES`; otherwise the file exists afterwards and is empty. -/
def fopen (fs : FileSys) (path : CStr) (mode : Mode) : Except Errno FileSys :=
  match mode with
  | Mode.wx =>
    if (fs.files path).isSome then Except.error Errno.EEXIST
    else if fs.denied path then Except.error Errno.EACCES
    else Except.ok { fs with files := Function.update fs.files path (some []) }
  | Mode.w =>
    if fs.denied path then Except.error Errno.EACCES
    else Except.ok { fs with files := Function.update fs.files path (some []) }

/-- The libc call `fwrite(data, 1, length, file)` on a stream just opened: the stream
takes the first `count` bytes into its buffer (all of them unless the environment makes
the call fail part way) and their number is returned.  The file system is not an
argument: what has been handed to the stream need not have reached the file.  Returns
the bytes the stream holds and the return value. -/
def fwrite (data : Bytes) (count : Nat) : Bytes × Nat :=
  (data.take count, min count data.length)

/-- The value `EOF`. -/
def EOF : Int := -1

/-- The libc call `fclose(file)` on the stream opened at `path` that holds `buffered`:
the buffer is flushed and the stream closed.  `flushed` is the number of the buffered
bytes that are in the file when the call returns (all of them unless the environment
makes the flush fail, a full disk for instance); they are written from the start of the
file, where the stream was opened, over what the file holds.  The result is `0`, or `EOF`
when the flush fell short.  Returns the file system and the return value. -/
def fclose (fs : FileSys) (path : CStr) (buffered : Bytes) (flushed : Nat) : FileSys × Int :=
  let written := buffered.take flushed
  let old := (fs.files path).getD []
  (⟨Function.update fs.files path (some (written ++ old.drop written.length)), fs.denied⟩,
   if buffered.length ≤ flushed then 0 else EOF)

/-! ## `save_certificate` (save_certificate.c) -/

/-- Opaque handle `X509 *` of a certificate. -/
structure X509 where
  handle : Nat
  deriving DecidableEq, Repr

/-- What the environment decides during `save_certificate`. -/
structure SaveEnv where
  /-- whether `BIO_new(BIO_s_mem())` returns a BIO -/
  BIO_new : Bool
  /-- the PEM text `PEM_write_bio_X509` leaves in the BIO, `none` when it fails -/
  PEM_write_bio_X509 : X509 → Option Bytes
  /-- the library digest, `none` when it returns `NULL` -/
  SHA256 : Bytes → Option Digest
  /-- the number of bytes the stream takes in the `fwrite` call -/
  fwrite_count : Bytes → Nat
  /-- the number of bytes of the stream that are in the file when `fclose` returns -/
  fclose_flushed : Bytes → Nat

/-- The line `save_certificate` prints on `stderr` (each carries the worker id). -/
inductive SaveDiag where
  | bioFailed           -- "Failed to create memory BIO"
  | pemFailed           -- "Failed to write certificate to memory BIO"
  | shaFailed           -- "Failed to calculate SHA256 hash"
  | suffixOverflow      -- "Buffer overflow when appending .pem"
  | pathTooLong         -- "File path too long"
  | alreadyExists (file_path : CStr)     -- "Certificate file already exists: %s"
  | openFailed (file_path : CStr) (e : Errno)   -- "Failed to open file %s for writing: %s"
  | writeFailed         -- "Failed to write certificate data to file"
  | saved (file_path : CStr)    -- "Certificate downloaded and saved successfully: %s"
  deriving DecidableEq, Repr

/-- Result of `save_certificate`: the returned `int`, the file system afterwards, the
line printed on `stderr`, and the arguments of the `fopen` call if one was made. -/
structure SaveResult where
  result : Int
  fs : FileSys
  diag : SaveDiag
  opened : Option (CStr × Mode)

/-- Lines 63-89 of `save_certificate`, from the `fopen` call on: `data` is the PEM text
held by the memory BIO and `file_path` the path just built.  The mode is `"w"` when
`overwrite` is set and `"wx"` otherwise; a failed `fopen` is a success (`0`) exactly
when `errno == EEXIST && !overwrite`; a short `fwrite` is a failure.  On both ways out
of the `fwrite` the label `cleanup` closes the stream, `if (file) fclose(file);`, and the
value `fclose` returns is not looked at. -/
def save_certificate_store (env : SaveEnv) (fs : FileSys) (data : Bytes) (file_path : CStr)
    (overwrite : Bool) : SaveResult :=
  let mode := if overwrite then Mode.w else Mode.wx
  match fopen fs file_path mode with
  | Except.error e =>
    if e = Errno.EEXIST ∧ overwrite = false then
      ⟨0, fs, SaveDiag.alreadyExists file_path, some (file_path, mode)⟩
    else ⟨-1, fs, SaveDiag.openFailed file_path e, some (file_path, mode)⟩
  | Except.ok fs1 =>
    let wr := fwrite data (env.fwrite_count data)
    let closed := fclose fs1 file_path wr.1 (env.fclose_flushed wr.1)
    if wr.2 ≠ data.length then ⟨-1, closed.1, SaveDiag.writeFailed, some (file_path, mode)⟩
    else ⟨0, closed.1, SaveDiag.saved file_path, some (file_path, mode)⟩

/-- The function `save_certificate(cert, output_dir, overwrite, worker_id)`: lines 29-61
(memory BIO, PEM text, digest, file name, path), then `save_certificate_store`. -/
def save_certificate (env : SaveEnv) (fs : FileSys) (cert : X509) (output_dir : CStr)
    (overwrite : Bool) (_worker_id : Int) : SaveResult :=
  if !env.BIO_new then ⟨-1, fs, SaveDiag.bioFailed, none⟩
  else
    match env.PEM_write_bio_X509 cert with
    | none => ⟨-1, fs, SaveDiag.pemFailed, none⟩
    | some data =>
      match sha256sum env.SHA256 (some data) (SHA256_HEX_LENGTH + 5) with
      | none => ⟨-1, fs, SaveDiag.shaFailed, none⟩
      | some hex =>
        let suffix := snprintf [] 5 ".pem".toList
        if suffix.2 ≥ 5 then ⟨-1, fs, SaveDiag.suffixOverflow, none⟩
        else
          let sha256_output := hex.take SHA256_HEX_LENGTH ++ suffix.1
          let p := snprintf [] MAX_PATH_LENGTH (output_dir ++ "/".toList ++ sha256_output)
          if p.2 ≥ (MAX_PATH_LENGTH : Int) then ⟨-1, fs, SaveDiag.pathTooLong, none⟩
          else save_certificate_store env fs data p.1 overwrite

/-! ## `wait_for_bio` and `download_certificate` (get_certificate.c) -/

/-- What the environment decides in one round of the connect loop. -/
structure ConnectStep where
  /-- return value of `BIO_do_connect(bio)` -/
  ret : Int
  /-- value of `BIO_should_retry(bio)` after the call -/
  should_retry : Bool
  /-- value of `BIO_should_read(bio)` after the call -/
  should_read : Bool
  /-- value of `BIO_should_write(bio)` after the call -/
  should_write : Bool
  /-- error codes the call appends to the error queue -/
  pushed : List ℕ+
  /-- return value of `BIO_get_fd(bio, NULL)` -/
  fd : Int
  /-- return value of `select`, given whether the descriptor is in the read set
  (otherwise it is in the write set) and `tv_sec` -/
  select : Bool → Int → Int

/-- What the environment decides during one call of `download_certificate`. -/
structure TlsEnv where
  /-- whether `SSL_CTX_new` returns a context -/
  SSL_CTX_new : Bool
  /-- whether `BIO_new_ssl_connect` returns a BIO -/
  BIO_new_ssl_connect : Bool
  /-- whether `BIO_get_ssl` yields an SSL object -/
  BIO_get_ssl : Bool
  /-- return value of `BIO_set_conn_hostname(bio, address)` -/
  BIO_set_conn_hostname : CStr → Int
  /-- return value of `SSL_set_tlsext_host_name(ssl, hostname)` -/
  SSL_set_tlsext_host_name : Option CStr → Int
  /-- the successive rounds of `BIO_do_connect` -/
  connect : Nat → ConnectStep
  /-- result of `SSL_get_peer_certificate(ssl)`, `none` for `NULL` -/
  SSL_get_peer_certificate : Option X509
  /-- text table of `ERR_error_string_n` -/
  errString : Nat → CStr
  /-- environment of the `save_certificate` call -/
  save : SaveEnv

/-- One call of `select` made by `wait_for_bio`: whether the descriptor was put in the
read set, and the `tv_sec` of the time limit (`tv_usec` is always `0`). -/
structure WaitCall where
  for_read : Bool
  tv_sec : Int
  deriving DecidableEq, Repr

/-- The function `wait_for_bio(bio, timeout, for_read)` in the round `step`: `-1`
without a `select` call when the descriptor is negative, otherwise the result of
`select` on the read set (`for_read` non-zero) or on the write set, limited to
`timeout` seconds.  Returns the result and the `select` call made. -/
def wait_for_bio (step : ConnectStep) (timeout : Int) (for_read : Int) :
    Int × Option WaitCall :=
  if step.fd < 0 then (-1, none)
  else if for_read ≠ 0 then (step.select true timeout, some ⟨true, timeout⟩)
  else (step.select false timeout, some ⟨false, timeout⟩)

/-- The libc call `strstr(haystack, needle) != NULL`. -/
def strstr (haystack needle : CStr) : Bool :=
  haystack.tails.any (fun t => needle.isPrefixOf t)

/-- The `goto cleanup` (or the final fall through) by which `download_certificate`
ends. -/
inductive DlExit where
  | ctxFailed          -- "Failed to create SSL context"
  | bioFailed          -- "Failed to create BIO"
  | sslFailed          -- "Failed to get SSL from BIO"
  | addressTooLong     -- "Worker %d: Hostname and port too long"
  | setConnFailed      -- "Worker %d: Failed to set connection hostname"
  | sniFailed          -- "Worker %d: Failed to set TLS extension hostname"
  | dnsFailed          -- "Worker %d: DNS resolution failure for %s:%s"
  | connectFailed      -- "Worker %d: Connection failed to %s:%s"
  | timedOut           -- "Worker %d: Connection timeout to %s:%s"
  | noCertificate      -- "Worker %d: Failed to get server certificate for %s:%s"
  | saveFailed         -- "Worker %d: Failed to save certificate for %s:%s"
  | success
  deriving DecidableEq, Repr

/-- The text of `"Worker %d: <what> %s:%s"`. -/
def workerTargetText (worker_id : Int) (what : String) (hostname : Option CStr)
    (port : CStr) : CStr :=
  "Worker ".toList ++ fmtD worker_id ++ ": ".toList ++ what.toList ++ " ".toList
    ++ fmtS hostname ++ ":".toList ++ port

/-- The text of `"Worker %d: <what>"`. -/
def workerText (worker_id : Int) (what : String) : CStr :=
  "Worker ".toList ++ fmtD worker_id ++ ": ".toList ++ what.toList

/-- How the connect loop of `download_certificate` ends: the last value assigned to
`ret`, the content of `result_message`, the error queue, the `select` calls made (in
order), and the `goto cleanup` taken (`none` when the loop was left because the connect
step returned a positive value). -/
structure LoopEnd where
  ret : Int
  result_message : CStr
  queue : List ℕ+
  waits : List WaitCall
  exit : Option DlExit

/-- The loop `while ((ret = BIO_do_connect(bio)) <= 0)` of `download_certificate`,
from round `i` on, for at most `fuel` rounds (`none`: the loop is still running after
`fuel` rounds).  A step that fails without a retry signal pops one error code, prints
its text into `result_message` (used as the format string; it is overwritten at once)
and classifies the failure; a step that asks for a retry is followed by
`wait_for_bio(bio, timeout, 0)`. -/
def download_certificate_loop (env : TlsEnv) (hostname : Option CStr) (port : CStr)
    (max_length : Nat)
    (timeout : Int) (worker_id : Int) :
    Nat → Nat → CStr → List ℕ+ → List WaitCall → Option LoopEnd
  | 0, _, _, _, _ => none
  | fuel + 1, i, msg, queue, waits =>
    let step := env.connect i
    let ret := step.ret
    let queue1 := queue ++ step.pushed
    if ret ≤ 0 then
      if !step.should_retry then
        let e := ERR_get_error queue1
        let error_string := ERR_error_string_n env.errString e.1 256
        let msg1 := (snprintf msg max_length error_string).1
        if strstr error_string "unknown host".toList
            || strstr error_string "Name or service not known".toList then
          some ⟨ret, (snprintf msg1 max_length
            (workerTargetText worker_id "DNS resolution failure for" hostname port)).1,
            e.2, waits, some DlExit.dnsFailed⟩
        else
          some ⟨ret, (snprintf msg1 max_length
            (workerTargetText worker_id "Connection failed to" hostname port)).1,
            e.2, waits, some DlExit.connectFailed⟩
      else
        let w := wait_for_bio step timeout 0
        if w.1 ≤ 0 then
          some ⟨ret, (snprintf msg max_length
            (workerTargetText worker_id "Connection timeout to" hostname port)).1,
            queue1, waits ++ w.2.toList, some DlExit.timedOut⟩
        else
          download_certificate_loop env hostname port max_length timeout worker_id fuel (i + 1) msg
            queue1 (waits ++ w.2.toList)
    else some ⟨ret, msg, queue1, waits, none⟩

/-- Result of `download_certificate`: the returned `int`, the content of
`result_message`, the file system and the error queue afterwards, the `select` calls
made, and the exit taken. -/
structure DlResult where
  ret : Int
  result_message : CStr
  fs : FileSys
  queue : List ℕ+
  waits : List WaitCall
  exit : DlExit

/-- The function `download_certificate(hostname, port, output_dir, result_message,
max_length, timeout, overwrite, worker_id)` started on the file system `fs` and the
error queue `queue`; `none` when the connect loop is still running after `fuel`
rounds. -/
def download_certificate (env : TlsEnv) (fuel : Nat) (fs : FileSys) (queue : List ℕ+)
    (hostname : Option CStr) (port : CStr) (output_dir : CStr) (result_message : CStr)
    (max_length : Nat) (timeout : Int) (overwrite : Bool) (worker_id : Int) :
    Option DlResult :=
  if !env.SSL_CTX_new then
    some ⟨-1, (snprintf result_message max_length "Failed to create SSL context".toList).1,
      fs, queue, [], DlExit.ctxFailed⟩
  else if !env.BIO_new_ssl_connect then
    some ⟨-1, (snprintf result_message max_length "Failed to create BIO".toList).1,
      fs, queue, [], DlExit.bioFailed⟩
  else if !env.BIO_get_ssl then
    some ⟨-1, (snprintf result_message max_length "Failed to get SSL from BIO".toList).1,
      fs, queue, [], DlExit.sslFailed⟩
  else
    let address := snprintf [] 512 (fmtS hostname ++ ":".toList ++ port)
    if address.2 ≥ 512 then
      some ⟨-1, (snprintf result_message max_length
        (workerText worker_id "Hostname and port too long")).1,
        fs, queue, [], DlExit.addressTooLong⟩
    else if env.BIO_set_conn_hostname address.1 ≠ 1 then
      some ⟨-1, (snprintf result_message max_length
        (workerText worker_id "Failed to set connection hostname")).1,
        fs, queue, [], DlExit.setConnFailed⟩
    else if env.SSL_set_tlsext_host_name hostname ≠ 1 then
      some ⟨-1, (snprintf result_message max_length
        (workerText worker_id "Failed to set TLS extension hostname")).1,
        fs, queue, [], DlExit.sniFailed⟩
    else
      match download_certificate_loop env hostname port max_length timeout worker_id fuel 0
          result_message queue [] with
      | none => none
      | some l =>
        match l.exit with
        | some x => some ⟨l.ret, l.result_message, fs, l.queue, l.waits, x⟩
        | none =>
          match env.SSL_get_peer_certificate with
          | none =>
            let msg1 := (snprintf l.result_message max_length (workerTargetText worker_id
              "Failed to get server certificate for" hostname port)).1
            let g := get_ssl_error env.errString (some msg1) max_length l.queue
            some ⟨l.ret, g.2.1.getD msg1, fs, g.2.2, l.waits, DlExit.noCertificate⟩
          | some cert =>
            let s := save_certificate env.save fs cert output_dir overwrite worker_id
            if s.result ≠ 0 then
              some ⟨l.ret, (snprintf l.result_message max_length (workerTargetText
                worker_id "Failed to save certificate for" hostname port)).1,
                s.fs, l.queue, l.waits, DlExit.saveFailed⟩
            else some ⟨0, l.result_message, s.fs, l.queue, l.waits, DlExit.success⟩

/-! ## The worker pool (`main` and `worker_thread`, download_cert.c) -/

/-- Where a worker stands in the loop of `worker_thread`: about to take `file_mutex` and
call `fgets`; holding the line it read, with the mutex released and lines 75-117 still to
run; inside the call of `download_certificate` of line 93, which has not returned; or out
of the loop after `fgets` returned `NULL`. -/
inductive WorkerPc where
  | reading
  | holding (line : CStr)
  | calling
  | finished
  deriving DecidableEq, Repr

/-- The threads with the state they share: the unread rest of `input_file`, each worker
with its `worker_data_t` and its place in the loop, the calls of `download_certificate`
made so far, in order, each with the line it was made for, and whether the process has
been ended. -/
structure Pool where
  input_file : List Char
  workers : List (worker_data_t × WorkerPc)
  calls : List (CStr × Call)
  exited : Bool

/-- The call `c` of `download_certificate` in the environment `env`, on the file system
`fs` and the error queue `queue`; `none` when the connect loop is still running after
`rounds` rounds. -/
def Call.run (c : Call) (env : TlsEnv) (rounds : Nat) (fs : FileSys) (queue : List ℕ+) :
    Option DlResult :=
  download_certificate env rounds fs queue c.hostname c.port c.output_dir c.result_message
    c.max_length c.timeout c.overwrite c.worker_id

/-- One entry of a schedule: the worker that takes the next atomic step (an index into
`workers`), and what the world outside the worker decides during that step.

The second `strtok` call runs outside any mutex and `strtok` keeps its scan position in
static storage shared by all threads, so what `strtok(NULL, "\n")` returns to this worker
depends on the `strtok` calls other workers made in between: `port` is that result.

A call of `download_certificate` made in the step meets the environment `env`, the file
system `fs` (other workers store certificates at the same time) and the error queue
`queue` of its thread, and is followed for `rounds` rounds of its connect loop.

The program installs no signal handler, so a signal raised inside the call (`SIGPIPE`
when the peer has closed the connection the call writes to, for instance) ends the
process: `signal` tells whether that happens. -/
structure PoolStep where
  worker : Nat
  port : Option CStr
  env : TlsEnv
  fs : FileSys
  queue : List ℕ+
  rounds : Nat
  signal : Bool

/-- One atomic step `e` of the worker `e.worker`.  A reading worker runs the critical
section of lines 58-73: `fgets` either returns `NULL` and the worker leaves the loop, or
delivers a line and advances the shared stream.  A worker holding a line runs lines
75-117: it takes the host from its line, and calls `download_certificate` unless the
formatting check makes it `continue`; when the call returns the worker goes back to
reading; when it does not (the connect loop is still running after `e.rounds` rounds)
the worker stays inside the call; and when a signal is raised inside the call the
process ends with the worker inside the call.  A worker inside a call and a finished
worker do nothing, and no worker does anything once the process has ended.  (The mutex
operations are taken to succeed; printing and the delay do not touch the shared
state.) -/
def Pool.step (p : Pool) (e : PoolStep) : Pool :=
  if p.exited then p
  else
  match p.workers[e.worker]? with
  | none => p
  | some (data, WorkerPc.reading) =>
    match fgets MAX_LINE_LENGTH p.input_file with
    | none => { p with workers := p.workers.set e.worker (data, WorkerPc.finished) }
    | some (line, rest) =>
      { p with input_file := rest,
               workers := p.workers.set e.worker (data, WorkerPc.holding line) }
  | some (data, WorkerPc.holding line) =>
    match worker_thread_call data (strtok line [':', '\n']).1 e.port with
    | none => { p with workers := p.workers.set e.worker (data, WorkerPc.reading) }
    | some c =>
      if e.signal then
        { p with workers := p.workers.set e.worker (data, WorkerPc.calling),
                 calls := p.calls ++ [(line, c)], exited := true }
      else
        match c.run e.env e.rounds e.fs e.queue with
        | none =>
          { p with workers := p.workers.set e.worker (data, WorkerPc.calling),
                   calls := p.calls ++ [(line, c)] }
        | some _ =>
          { p with workers := p.workers.set e.worker (data, WorkerPc.reading),
                   calls := p.calls ++ [(line, c)] }
  | some (_, WorkerPc.calling) => p
  | some (_, WorkerPc.finished) => p

/-- An interleaving: the workers take their atomic steps in the order of `sched`. -/
def Pool.run (p : Pool) (sched : List PoolStep) : Pool := sched.foldl Pool.step p

/-- The pool as `main` starts it: `workers` threads with the ids `1, 2, ...`, all about to
read, on the freshly opened input. -/
def Pool.start (input : List Char) (workers : Nat) (output_dir : CStr) (timeout : Int)
    (overwrite : Bool) : Pool :=
  { input_file := input
    workers := (List.range workers).map
      (fun (i : Nat) => (⟨(i : Int) + 1, output_dir, timeout, overwrite⟩, WorkerPc.reading))
    calls := []
    exited := false }

/-! ## Notions of the specification -/

/-- The `n`-th lowercase hexadecimal digit. -/
def hexDigit (n : Nat) : Char := "0123456789abcdef".toList.getD n '0'

/-- Lowercase hexadecimal text of a byte string as the specification words it: two
digits per byte, in order, high nibble first. -/
def lowercase_hex (d : List Byte) : CStr :=
  d.flatMap (fun b => [hexDigit (b.val / 16), hexDigit (b.val % 16)])

/-- The content address as the specification words it: `output_dir`, a slash, the
lowercase hexadecimal digest, and the extension `.pem`. -/
def contentPath (output_dir : CStr) (d : Digest) : CStr :=
  output_dir ++ "/".toList ++ (lowercase_hex d.bytes ++ ".pem".toList)

/-- The entries `" error: <text>"` of the queued errors, in queue order, each text as
`ERR_error_string_n` delivers it into `err_msg[256]`. -/
def errorEntries (errString : Nat → CStr) (queue : List ℕ+) : List CStr :=
  queue.map (fun e => errorEntry (ERR_error_string_n errString e.val 256))

/-- The message `download_certificate` formats on the way to each exit (before any
truncation to the buffer), as the formats of the `snprintf` calls read; `none` for the
exits that are not settled here (`noCertificate`, whose message is afterwards handed to
`get_ssl_error`) and for `success`, which formats nothing. -/
def failureText (x : DlExit) (worker_id : Int) (hostname : Option CStr) (port : CStr) :
    Option CStr :=
  match x with
  | DlExit.ctxFailed => some "Failed to create SSL context".toList
  | DlExit.bioFailed => some "Failed to create BIO".toList
  | DlExit.sslFailed => some "Failed to get SSL from BIO".toList
  | DlExit.addressTooLong => some (workerText worker_id "Hostname and port too long")
  | DlExit.setConnFailed => some (workerText worker_id "Failed to set connection hostname")
  | DlExit.sniFailed => some (workerText worker_id "Failed to set TLS extension hostname")
  | DlExit.dnsFailed =>
    some (workerTargetText worker_id "DNS resolution failure for" hostname port)
  | DlExit.connectFailed =>
    some (workerTargetText worker_id "Connection failed to" hostname port)
  | DlExit.timedOut =>
    some (workerTargetText worker_id "Connection timeout to" hostname port)
  | DlExit.saveFailed =>
    some (workerTargetText worker_id "Failed to save certificate for" hostname port)
  | DlExit.noCertificate => none
  | DlExit.success => none

/-- A round of the connect loop after which the loop goes round again: the connect
step returned a non-positive value with the retry signal, and the readiness wait
reported a ready descriptor. -/
def retryRound (step : ConnectStep) (timeout : Int) : Prop :=
  step.ret ≤ 0 ∧ step.should_retry = true ∧ 0 < (wait_for_bio step timeout 0).1

instance (step : ConnectStep) (timeout : Int) : Decidable (retryRound step timeout) := by
  unfold retryRound
  infer_instance

/-- A readiness wait that follows the indication of the library after the round `step`,
as the specification words it: on the read set when the library needs to read, on the
write set when it needs to write. -/
def followsIndication (step : ConnectStep) (w : WaitCall) : Prop :=
  (step.should_read = true → w.for_read = true)
  ∧ (step.should_write = true → w.for_read = false)

instance (step : ConnectStep) (w : WaitCall) : Decidable (followsIndication step w) := by
  unfold followsIndication
  infer_instance

/-- Every worker has left its loop. -/
def Pool.done (p : Pool) : Prop := ∀ w ∈ p.workers, w.2 = WorkerPc.finished

/-- The process has not been ended and no worker is inside a call of
`download_certificate` that has not returned. -/
def Pool.noneCalling (p : Pool) : Prop :=
  p.exited = false ∧ ∀ w ∈ p.workers, w.2 ≠ WorkerPc.calling

/-- Every call of `download_certificate` made in the step `e` returns, whatever its
arguments: no signal ends the process and the connect loop comes to an end. -/
def PoolStep.returns (e : PoolStep) : Prop :=
  e.signal = false ∧ ∀ c : Call, (c.run e.env e.rounds e.fs e.queue).isSome = true

/-- A target as the specification words it: a host and an optional port. -/
structure Target where
  host : CStr
  port : Option CStr
  deriving DecidableEq, Repr

/-- The text `host[:port]` of a target. -/
def Target.text (t : Target) : CStr :=
  match t.port with
  | none => t.host
  | some p => t.host ++ ':' :: p

/-- A well-formed line: a non-empty host without `:`, a port that is non-empty when
given, no newline and no NUL inside, and at most 254 characters. -/
def Target.WellFormed (t : Target) : Prop :=
  t.host ≠ [] ∧ ':' ∉ t.host ∧ t.port ≠ some []
    ∧ '\n' ∉ t.text ∧ Char.ofNat 0 ∉ t.text ∧ t.text.length ≤ 254

instance (t : Target) : Decidable t.WellFormed := by
  unfold Target.WellFormed
  infer_instance

/-- The line of the input file that carries a target, as `fgets` hands it to a worker,
with the host the worker is to call. -/
def Target.handed (t : Target) : CStr × Option CStr := (t.text ++ ['\n'], some t.host)

/-- The input file with one newline-terminated line per target. -/
def inputOf (targets : List Target) : List Char :=
  targets.flatMap (fun t => t.text ++ ['\n'])

instance (p : Pool) : Decidable p.done := by
  unfold Pool.done
  infer_instance

instance (p : Pool) : Decidable p.noneCalling := by
  unfold Pool.noneCalling
  infer_instance

/-! ## Invariant and measure of the pool -/

/-- The lines held by workers that have read but not yet processed them. -/
def heldLines (workers : List (worker_data_t × WorkerPc)) : List CStr :=
  workers.filterMap (fun w =>
    match w.2 with
    | WorkerPc.holding line => some line
    | _ => none)

/-- Progress measure of a worker: steps it can still take without reading. -/
def WorkerPc.weight : WorkerPc → Nat
  | WorkerPc.reading => 1
  | WorkerPc.holding _ => 2
  | WorkerPc.calling => 0
  | WorkerPc.finished => 0

/-- Progress measure of the pool: it decreases with every step of a worker that is
neither finished nor inside a call. -/
def Pool.measure (p : Pool) : Nat :=
  2 * p.input_file.length + (p.workers.map (fun w => w.2.weight)).sum

/-- Invariant of the pool on the input `inputOf targets`: the first `k` lines have been
read and the rest is unread; every worker id is between 1 and `MAX_WORKERS`; held lines
fit the buffer; the calls made together with the held lines account for exactly the
lines read; and a worker has finished only if the input is exhausted. -/
def Pool.Inv (targets : List Target) (p : Pool) : Prop :=
  ∃ k, k ≤ targets.length
    ∧ p.input_file = inputOf (targets.drop k)
    ∧ (∀ w ∈ p.workers, 1 ≤ w.1.worker_id ∧ w.1.worker_id ≤ 100)
    ∧ (∀ l ∈ heldLines p.workers, l.length ≤ 255)
    ∧ (p.calls.map (fun e => (e.1, e.2.hostname))
        ++ (heldLines p.workers).map (fun l => (l, (strtok l [':', '\n']).1))).Perm
        ((targets.take k).map Target.handed)
    ∧ ((∃ w ∈ p.workers, w.2 = WorkerPc.finished) → p.input_file = [])

/-! ## Sample values (used to instantiate the theorems) -/

/-- A digest with every byte `0xab`. -/
def sampleDigest : Digest := ⟨List.replicate 32 (171 : Byte), by decide⟩

/-- An environment of `save_certificate` in which nothing fails: every certificate
encodes to three bytes and every digest is `sampleDigest`. -/
def sampleSaveEnv : SaveEnv :=
  { BIO_new := true
    PEM_write_bio_X509 := fun _ => some [1, 2, 3]
    SHA256 := fun _ => some sampleDigest
    fwrite_count := fun b => b.length
    fclose_flushed := fun b => b.length }

/-- The sample environment, except that the flush in `fclose` gets only the first byte
into the file (the disk is full). -/
def shortFlushEnv : SaveEnv :=
  { sampleSaveEnv with fclose_flushed := fun _ => 1 }

/-- The file system without files and without denied paths. -/
def emptyFs : FileSys := ⟨fun _ => none, fun _ => false⟩

/-- A file system whose only file is the content address of `sampleDigest` under `out`,
holding one byte. -/
def storedFs : FileSys :=
  ⟨fun p => if p = contentPath "out".toList sampleDigest then some [9] else none,
   fun _ => false⟩

/-- A file system whose only file is the content address of `sampleDigest` under `out`,
holding five bytes. -/
def longStoredFs : FileSys :=
  ⟨fun p => if p = contentPath "out".toList sampleDigest then some [7, 7, 7, 7, 7] else none,
   fun _ => false⟩

/-- A text table in which every error reads `boom`. -/
def sampleErrString : Nat → CStr := fun _ => "boom".toList

/-- A round of the connect loop: `BIO_do_connect` returns `ret` with the given retry
flag, leaves no error, the descriptor is `3`, and `select` returns `ready`. -/
def sampleStep (ret : Int) (should_retry : Bool) (ready : Int) : ConnectStep :=
  { ret := ret, should_retry := should_retry, should_read := false, should_write := true,
    pushed := [], fd := 3, select := fun _ _ => ready }

/-- An environment of `download_certificate` in which every setup call succeeds, with
the given rounds of the connect loop and the given peer certificate. -/
def sampleTlsEnv (connect : Nat → ConnectStep) (cert : Option X509) : TlsEnv :=
  { SSL_CTX_new := true, BIO_new_ssl_connect := true, BIO_get_ssl := true,
    BIO_set_conn_hostname := fun _ => 1, SSL_set_tlsext_host_name := fun _ => 1,
    connect := connect, SSL_get_peer_certificate := cert,
    errString := sampleErrString, save := sampleSaveEnv }

/-- The sample environment, except that `SSL_CTX_new` returns `NULL`. -/
def noContextEnv : TlsEnv :=
  { sampleTlsEnv (fun _ => sampleStep 1 false 1) none with SSL_CTX_new := false }

/-- Rounds in which the connect step asks for a retry twice, the descriptor being ready
each time, and then succeeds. -/
def twoRetries : Nat → ConnectStep := fun i =>
  if i < 2 then sampleStep (-1) true 1 else sampleStep 1 false 1

/-- Rounds in which the connect step always asks for a retry and the descriptor is
always ready. -/
def alwaysRetry : Nat → ConnectStep := fun _ => sampleStep (-1) true 1

/-- The host `example.com`. -/
def sampleHost : CStr := "example.com".toList

/-- The attempt message of worker 7 for `example.com:8443`. -/
def sampleMessage : CStr := attemptText 7 (some sampleHost) "8443".toList

/-- The two lines of the scenario of the specification: `example.com` and
`example.com:8443`. -/
def sampleTargets : List Target :=
  [⟨"example.com".toList, none⟩, ⟨"example.com".toList, some "8443".toList⟩]

/-- A round in which the connect step would block on a read: `BIO_do_connect` returns
`-1`, `BIO_should_retry` and `BIO_should_read` hold and `BIO_should_write` does not; the
descriptor is `3`, it is writable at once (`select` on the write set returns `1`) and
nothing arrives to be read (`select` on the read set returns `0` when the time limit has
passed). -/
def wantReadStep : ConnectStep :=
  { ret := -1, should_retry := true, should_read := true, should_write := false,
    pushed := [], fd := 3, select := fun readSet _ => if readSet then 0 else 1 }

/-- The peer that accepts the connection and stays silent: every connect step would
block on a read, no setup call fails. -/
def silentPeerEnv : TlsEnv := sampleTlsEnv (fun _ => wantReadStep) none

/-- A step of worker `w` in which a call of `download_certificate` connects at once and
finds no peer certificate. -/
def quickStep (w : Nat) (port : Option CStr) : PoolStep :=
  ⟨w, port, sampleTlsEnv (fun _ => sampleStep 1 false 1) none, emptyFs, [], 1, false⟩

/-- A step of worker `w` in which a call of `download_certificate` meets the silent
peer and is followed for `rounds` rounds. -/
def silentStep (w : Nat) (rounds : Nat) : PoolStep :=
  ⟨w, none, silentPeerEnv, emptyFs, [], rounds, false⟩

/-- A step of worker `w` in which a call of `download_certificate` is ended, with the
process, by a signal. -/
def signalStep (w : Nat) : PoolStep :=
  ⟨w, none, sampleTlsEnv (fun _ => sampleStep 1 false 1) none, emptyFs, [], 1, true⟩

/-- Rounds in which the first connect step would block on a read and the second
succeeds. -/
def wantReadOnce : Nat → ConnectStep := fun i =>
  if i = 0 then wantReadStep else sampleStep 1 false 1

/-! ## Two workers inside `save_certificate` (lines 63-89) -/

/-- Where a worker stands in lines 63-89 of `save_certificate`: about to call `fopen`;
with its stream open and about to call `fwrite`; at the label `cleanup` with the bytes
the stream holds, about to call `fclose`, the value to return and the line printed being
settled; or returned. -/
inductive StorePc where
  | opening
  | writing
  | closing (buffered : Bytes) (result : Int) (diag : SaveDiag)
  | returned (result : Int) (diag : SaveDiag)
  deriving DecidableEq, Repr

/-- Whether the worker has returned from `save_certificate`. -/
def StorePc.isReturned : StorePc → Bool
  | StorePc.returned _ _ => true
  | _ => false

/-- The value the worker returned, `none` while it is still inside the function. -/
def StorePc.result : StorePc → Option Int
  | StorePc.returned r _ => some r
  | _ => none

/-- One atomic step of a worker in lines 63-89 on the file system `fs` shared with the
other threads.  A worker about to open makes the `fopen` call of line 65 (mode `"w"` or
`"wx"`): a failure returns at once, with `0` exactly when `errno == EEXIST &&
!overwrite`; a success leaves the worker with its open stream.  A worker with its open
stream makes the `fwrite` call of line 77, which fills the buffer of the stream and
settles the result: `-1` after a short count, `0` after the full count.  A worker at
`cleanup` makes the `fclose` call of line 88, which brings the buffered bytes to the
file, and returns.  A worker that has returned does nothing. -/
def save_certificate_step (env : SaveEnv) (data : Bytes) (file_path : CStr)
    (overwrite : Bool) (fs : FileSys) : StorePc → FileSys × StorePc
  | StorePc.opening =>
    match fopen fs file_path (if overwrite then Mode.w else Mode.wx) with
    | Except.error e =>
      if e = Errno.EEXIST ∧ overwrite = false then
        (fs, StorePc.returned 0 (SaveDiag.alreadyExists file_path))
      else (fs, StorePc.returned (-1) (SaveDiag.openFailed file_path e))
    | Except.ok fs1 => (fs1, StorePc.writing)
  | StorePc.writing =>
    let wr := fwrite data (env.fwrite_count data)
    if wr.2 ≠ data.length then (fs, StorePc.closing wr.1 (-1) SaveDiag.writeFailed)
    else (fs, StorePc.closing wr.1 0 (SaveDiag.saved file_path))
  | StorePc.closing buffered r d =>
    ((fclose fs file_path buffered (env.fclose_flushed buffered)).1, StorePc.returned r d)
  | StorePc.returned r d => (fs, StorePc.returned r d)

/-- Two workers inside lines 63-89 of `save_certificate`, with the file system they
share (no mutex is held there). -/
structure StoreRace where
  fs : FileSys
  first : StorePc
  second : StorePc

/-- One step of the race: the second worker takes its next atomic step when `w` is
`true`, the first worker otherwise.  Both store the same bytes `data` at the same path
with `overwrite = false`. -/
def StoreRace.step (env : SaveEnv) (data : Bytes) (file_path : CStr) (s : StoreRace)
    (w : Bool) : StoreRace :=
  if w then
    let r := save_certificate_step env data file_path false s.fs s.second
    { fs := r.1, first := s.first, second := r.2 }
  else
    let r := save_certificate_step env data file_path false s.fs s.first
    { fs := r.1, first := r.2, second := s.second }

/-- An interleaving: the two workers take their atomic steps in the order of `sched`. -/
def StoreRace.run (env : SaveEnv) (data : Bytes) (file_path : CStr) (s : StoreRace)
    (sched : List Bool) : StoreRace :=
  sched.foldl (StoreRace.step env data file_path) s

/-- Both workers about to call `fopen`, on the file system `fs`. -/
def StoreRace.start (fs : FileSys) : StoreRace :=
  { fs := fs, first := StorePc.opening, second := StorePc.opening }

/-- Both workers have returned from `save_certificate`. -/
def StoreRace.done (s : StoreRace) : Prop :=
  s.first.isReturned = true ∧ s.second.isReturned = true

instance (s : StoreRace) : Decidable s.done := by
  unfold StoreRace.done
  infer_instance

/-- The file system `fs0` with the content of `path` replaced by `x` (no file when `x`
is `none`). -/
def FileSys.withFile (fs0 : FileSys) (path : CStr) (x : Option Bytes) : FileSys :=
  ⟨Function.update fs0.files path x, fs0.denied⟩

/-- A worker that did not create the file: it has not called `fopen` yet, or it has
returned `0` after `EEXIST`. -/
def StorePc.contender (path : CStr) (pc : StorePc) : Prop :=
  pc = StorePc.opening ∨ pc = StorePc.returned 0 (SaveDiag.alreadyExists path)

/-- A worker that created the file and has not closed its stream: it is about to call
`fwrite`, or the stream holds all of `data` and it is about to call `fclose`. -/
def StorePc.creator (data : Bytes) (path : CStr) (pc : StorePc) : Prop :=
  pc = StorePc.writing ∨ pc = StorePc.closing data 0 (SaveDiag.saved path)

/-- The states of a race that started on `fs0` with both workers about to open: nothing
done yet; the file was there from the start and is left alone; one worker created the
file (empty so far) and has not closed its stream; one worker created the file, brought
`data` into it and returned `0`. -/
def StoreRace.Inv (data : Bytes) (path : CStr) (fs0 : FileSys) (s : StoreRace) : Prop :=
  (fs0.files path = none ∧ s.fs = fs0 ∧ s.first = StorePc.opening
      ∧ s.second = StorePc.opening)
  ∨ ((fs0.files path).isSome = true ∧ s.fs = fs0 ∧ s.first.contender path
      ∧ s.second.contender path)
  ∨ (fs0.files path = none ∧ s.fs = fs0.withFile path (some [])
      ∧ ((s.first.creator data path ∧ s.second.contender path)
        ∨ (s.second.creator data path ∧ s.first.contender path)))
  ∨ (fs0.files path = none ∧ s.fs = fs0.withFile path (some data)
      ∧ ((s.first = StorePc.returned 0 (SaveDiag.saved path) ∧ s.second.contender path)
        ∨ (s.second = StorePc.returned 0 (SaveDiag.saved path)
            ∧ s.first.contender path)))


/-! ## Target parsing -/

theorem takeWhile_append_stop {α : Type} (f : α → Bool) (a b : List α)
    (ha : ∀ x ∈ a, f x = true) (hb : ∀ y ∈ b.head?, f y = false) :
    (a ++ b).takeWhile f = a := by
  induction a with
  | nil =>
    cases b with
    | nil => rfl
    | cons y ys => simp [List.takeWhile_cons, hb y (by simp)]
  | cons x xs ih =>
    have hx : f x = true := ha x (by simp)
    rw [List.cons_append, List.takeWhile_cons, if_pos hx,
      ih (fun z hz => ha z (by simp [hz]))]

theorem dropWhile_append_stop {α : Type} (f : α → Bool) (a b : List α)
    (ha : ∀ x ∈ a, f x = true) (hb : ∀ y ∈ b.head?, f y = false) :
    (a ++ b).dropWhile f = b := by
  induction a with
  | nil =>
    cases b with
    | nil => rfl
    | cons y ys => simp [List.dropWhile_cons, hb y (by simp)]
  | cons x xs ih =>
    have hx : f x = true := ha x (by simp)
    rw [List.cons_append, List.dropWhile_cons, if_pos hx,
      ih (fun z hz => ha z (by simp [hz]))]

/-- A token that starts with a non-delimiter and is followed by a delimiter or by the
end of the string is returned whole, and the scan resumes behind the delimiter. -/
theorem strtok_token (delim tok rest : CStr) (hne : tok ≠ [])
    (htok : ∀ x ∈ tok, x ∉ delim)
    (hrest : ∀ y ∈ rest.head?, y ∈ delim) :
    strtok (tok ++ rest) delim = (some tok, rest.drop 1) := by
  cases tok with
  | nil => exact absurd rfl hne
  | cons c cs =>
    have hc : c ∉ delim := htok c (by simp)
    have h1 : ((c :: cs) ++ rest).dropWhile (fun x => delim.contains x)
        = c :: (cs ++ rest) := by
      rw [List.cons_append, List.dropWhile_cons]
      simp [hc]
    have h2 : (c :: (cs ++ rest)).takeWhile (fun x => !delim.contains x) = c :: cs := by
      have := takeWhile_append_stop (fun x => !delim.contains x) (c :: cs) rest
        (fun x hx => by simpa using htok x hx)
        (fun y hy => by simpa using hrest y hy)
      simpa using this
    have h3 : (c :: (cs ++ rest)).dropWhile (fun x => !delim.contains x) = rest := by
      have := dropWhile_append_stop (fun x => !delim.contains x) (c :: cs) rest
        (fun x hx => by simpa using htok x hx)
        (fun y hy => by simpa using hrest y hy)
      simpa using this
    unfold strtok
    rw [h1]
    simp only [h2, h3]

/-- A line `h` or `h` newline, with `h` non-empty and free of `:` and newline, parses
to the host `h` and the default port when no other thread calls `strtok` between the two
calls. -/
theorem worker_thread_parse_host_only (h nl : CStr) (hne : h ≠ [])
    (hcolon : ':' ∉ h) (hnewline : '\n' ∉ h) (hnl : nl = [] ∨ nl = ['\n']) :
    worker_thread_parse (h ++ nl) id = (some h, DEFAULT_PORT) := by
  have hh : ∀ x ∈ h, x ∉ [':', '\n'] := by
    intro x hx
    have h1 : x ≠ ':' := fun e => hcolon (e ▸ hx)
    have h2 : x ≠ '\n' := fun e => hnewline (e ▸ hx)
    simp [h1, h2]
  have h1 : strtok (h ++ nl) [':', '\n'] = (some h, nl.drop 1) :=
    strtok_token _ h nl hne hh (by rcases hnl with e | e <;> simp [e])
  have h2 : strtok (nl.drop 1) ['\n'] = (none, []) := by
    rcases hnl with e | e <;> simp [e, strtok]
  simp only [worker_thread_parse, h1, h2, id]

/-- A line `h:p` or `h:p` newline, with `h` as before and `p` non-empty and free of
newlines, parses to the host `h` and the port `p` when no other thread calls `strtok`
between the two calls. -/
theorem worker_thread_parse_host_colon_port (h nl p : CStr) (hne : h ≠ [])
    (hcolon : ':' ∉ h) (hnewline : '\n' ∉ h) (hnl : nl = [] ∨ nl = ['\n'])
    (hp : p ≠ []) (hpn : '\n' ∉ p) :
    worker_thread_parse (h ++ ':' :: p ++ nl) id = (some h, p) := by
  have hh : ∀ x ∈ h, x ∉ [':', '\n'] := by
    intro x hx
    have h1 : x ≠ ':' := fun e => hcolon (e ▸ hx)
    have h2 : x ≠ '\n' := fun e => hnewline (e ▸ hx)
    simp [h1, h2]
  have h1 : strtok (h ++ (':' :: p ++ nl)) [':', '\n'] = (some h, p ++ nl) := by
    have := strtok_token [':', '\n'] h (':' :: p ++ nl) hne hh (by simp)
    simpa using this
  have hpp : ∀ x ∈ p, x ∉ ['\n'] := by
    intro x hx
    have h2 : x ≠ '\n' := fun e => hpn (e ▸ hx)
    simp [h2]
  have h2 : strtok (p ++ nl) ['\n'] = (some p, nl.drop 1) :=
    strtok_token _ p nl hp hpp (by rcases hnl with e | e <;> simp [e])
  have e : h ++ ':' :: p ++ nl = h ++ (':' :: p ++ nl) := by simp
  rw [e]
  simp only [worker_thread_parse, h1, h2, id]

/-- The host is the first token of the line, whatever the other threads do to the saved
position of `strtok`: the first call starts at the line itself. -/
theorem worker_thread_parse_host (line : CStr) (others : CStr → CStr) :
    (worker_thread_parse line others).1 = (strtok line [':', '\n']).1 := rfl

/-- A worker that runs line 76 and line 77 with no step of another thread in between
parses its line as `worker_thread_parse` does with nothing done to the saved
position. -/
theorem worker_thread_parse_step_twice (save line : CStr) :
    (worker_thread_parse_step (worker_thread_parse_step save (ParsePc.line76 line)).1
        (worker_thread_parse_step save (ParsePc.line76 line)).2).2
      = ParsePc.parsed (worker_thread_parse line id).1 (worker_thread_parse line id).2 := rfl

/-- Claim C1 (evaluation at the failing input). Two workers hold the lines `example.com`
and `example.com:8443`, each with its newline.  A worker that is not interrupted parses
them to `example.com`/`443` and `example.com`/`8443`.  But `strtok` keeps its position in
one static shared by all threads and lines 76-77 run outside `file_mutex`: when the calls
are made in the order line 76 of the first worker, line 76 of the second, line 77 of the
first, line 77 of the second, the first worker's second call continues in the second
worker's line, so the line `example.com` is parsed to the port `8443`, and the second
worker's call then finds nothing left, so the line `example.com:8443` is parsed to the
port `443`. -/
theorem worker_thread_parse_shared_strtok :
    (ParseRace.start "example.com\n".toList "example.com:8443\n".toList).run
        [false, false, true, true]
      = ⟨[], ParsePc.parsed (some "example.com".toList) "443".toList,
          ParsePc.parsed (some "example.com".toList) "8443".toList⟩
    ∧ (ParseRace.start "example.com\n".toList "example.com:8443\n".toList).run
        [false, true, false, true]
      = ⟨[], ParsePc.parsed (some "example.com".toList) "8443".toList,
          ParsePc.parsed (some "example.com".toList) "443".toList⟩
    ∧ worker_thread_parse "example.com\n".toList id
        = (some "example.com".toList, "443".toList)
    ∧ worker_thread_parse "example.com:8443\n".toList id
        = (some "example.com".toList, "8443".toList)
    ∧ worker_thread_parse "example.com".toList id
        = (some "example.com".toList, "443".toList)
    ∧ worker_thread_parse "example.com:8443".toList id
        = (some "example.com".toList, "8443".toList)
    ∧ worker_thread_parse "example.com\n".toList
        (fun _ => (strtok "example.com:8443\n".toList [':', '\n']).2)
        = (some "example.com".toList, "8443".toList)
    ∧ worker_thread_parse "example.com:8443\n".toList (fun s => (strtok s ['\n']).2)
        = (some "example.com".toList, "443".toList) := by
  refine ⟨by decide, by decide, by decide, by decide, by decide, by decide, by decide,
    by decide⟩

/-- Claim C2 (evaluation at the failing inputs). For the empty line and for a line made
of `:` and the terminator, `strtok` yields no host token (`hostname == NULL`), yet
`worker_thread` does not skip the line: it formats the attempt message and calls
`download_certificate` with the `NULL` hostname and the default port. -/
theorem worker_thread_attempt_no_host_still_calls :
    worker_thread_parse ['\n'] id = (none, "443".toList)
    ∧ worker_thread_attempt ⟨1, "out".toList, 3, false⟩ ['\n']
      = some { hostname := none, port := "443".toList, output_dir := "out".toList,
               result_message := "Worker 1: Attempting to connect to (null):443...".toList,
               max_length := 2048, timeout := 3, overwrite := false, worker_id := 1 }
    ∧ worker_thread_parse [':', ':', '\n'] id = (none, "443".toList)
    ∧ (worker_thread_attempt ⟨1, "out".toList, 3, false⟩ [':', ':', '\n']).isSome = true
    ∧ (∀ others : CStr → CStr,
        (worker_thread_parse ['\n'] others).1 = none
        ∧ (worker_thread_parse [':', ':', '\n'] others).1 = none) := by
  refine ⟨by decide, by decide, by decide, by decide, fun _ => ⟨rfl, rfl⟩⟩

/-! ## Content addressing -/

theorem snprintf_fmt02x (b : Byte) :
    snprintf [] 3 (fmt02x b.val) = ([hexDigit (b.val / 16), hexDigit (b.val % 16)], 2) := by
  revert b
  decide

theorem sha256sum_loop_eq (bs : List Byte) (out : CStr) :
    sha256sum_loop bs out = some (out ++ lowercase_hex bs) := by
  induction bs generalizing out with
  | nil => simp [sha256sum_loop, lowercase_hex]
  | cons b bs ih =>
    simp only [sha256sum_loop, snprintf_fmt02x, ne_eq, not_true_eq_false, if_false]
    rw [ih]
    simp [lowercase_hex]

theorem lowercase_hex_length (d : List Byte) : (lowercase_hex d).length = 2 * d.length := by
  induction d with
  | nil => rfl
  | cons b bs ih =>
    have : lowercase_hex (b :: bs)
        = hexDigit (b.val / 16) :: hexDigit (b.val % 16) :: lowercase_hex bs := by
      simp [lowercase_hex]
    rw [this]
    simp [ih]
    omega

theorem hexDigit_mem (b : Byte) :
    hexDigit (b.val / 16) ∈ "0123456789abcdef".toList
    ∧ hexDigit (b.val % 16) ∈ "0123456789abcdef".toList := by
  revert b
  decide

theorem lowercase_hex_chars (d : List Byte) :
    ∀ c ∈ lowercase_hex d, c ∈ "0123456789abcdef".toList := by
  induction d with
  | nil => intro c hc; simp [lowercase_hex] at hc
  | cons b bs ih =>
    intro c hc
    have e : lowercase_hex (b :: bs)
        = hexDigit (b.val / 16) :: hexDigit (b.val % 16) :: lowercase_hex bs := by
      simp [lowercase_hex]
    rw [e] at hc
    rcases List.mem_cons.1 hc with h | hc
    · rw [h]; exact (hexDigit_mem b).1
    · rcases List.mem_cons.1 hc with h | hc
      · rw [h]; exact (hexDigit_mem b).2
      · exact ih c hc

theorem hexPair_injective (a b : Byte)
    (h1 : hexDigit (a.val / 16) = hexDigit (b.val / 16))
    (h2 : hexDigit (a.val % 16) = hexDigit (b.val % 16)) : a = b := by
  have hq : ∀ x y : Fin 16, hexDigit x.val = hexDigit y.val → x = y := by decide
  have e1 := hq ⟨a.val / 16, by omega⟩ ⟨b.val / 16, by omega⟩ h1
  have e2 := hq ⟨a.val % 16, by omega⟩ ⟨b.val % 16, by omega⟩ h2
  have e1v : a.val / 16 = b.val / 16 := by simpa using congrArg Fin.val e1
  have e2v : a.val % 16 = b.val % 16 := by simpa using congrArg Fin.val e2
  apply Fin.ext
  omega

theorem lowercase_hex_injective (d1 d2 : List Byte)
    (h : lowercase_hex d1 = lowercase_hex d2) : d1 = d2 := by
  induction d1 generalizing d2 with
  | nil =>
    cases d2 with
    | nil => rfl
    | cons b bs => simp [lowercase_hex] at h
  | cons a as ih =>
    cases d2 with
    | nil => simp [lowercase_hex] at h
    | cons b bs =>
      have ea : lowercase_hex (a :: as)
          = hexDigit (a.val / 16) :: hexDigit (a.val % 16) :: lowercase_hex as := by
        simp [lowercase_hex]
      have eb : lowercase_hex (b :: bs)
          = hexDigit (b.val / 16) :: hexDigit (b.val % 16) :: lowercase_hex bs := by
        simp [lowercase_hex]
      rw [ea, eb] at h
      injection h with h1 h
      injection h with h2 h
      rw [hexPair_injective a b h1 h2, ih bs h]

/-- The hexadecimal text `sha256sum` leaves in `output`. -/
theorem sha256sum_eq (SHA256 : Bytes → Option Digest) (b : Bytes) (d : Digest)
    (hsha : SHA256 b = some d) :
    sha256sum SHA256 (some b) (SHA256_HEX_LENGTH + 5) = some (lowercase_hex d.bytes) := by
  have hsz : ¬ (SHA256_HEX_LENGTH + 5 < SHA256_DIGEST_LENGTH * 2 + 1) := by decide
  simp only [sha256sum, hsz, if_false, hsha, sha256sum_loop_eq, List.nil_append]

theorem snprintf_fits (old : CStr) (size : Nat) (text : CStr) (h : text.length < size)
    (hs : size ≤ 2147483648) :
    snprintf old size text = (text, (text.length : Int)) := by
  unfold snprintf
  have h0 : size ≠ 0 := by omega
  have h1 : text.take (size - 1) = text := List.take_of_length_le (by omega)
  have h2 : text.length ≤ INT_MAX := by
    unfold INT_MAX
    omega
  simp [h0, h1, h2]

/-- Up to the `fopen` call: with the BIO created, the PEM text `b` written, its digest `d`
computed and the path fitting `file_path`, `save_certificate` continues at line 63 with
the content address as `file_path`. -/
theorem save_certificate_at_fopen (env : SaveEnv) (fs : FileSys) (cert : X509)
    (output_dir : CStr) (overwrite : Bool) (worker_id : Int) (b : Bytes) (d : Digest)
    (hbio : env.BIO_new = true) (hpem : env.PEM_write_bio_X509 cert = some b)
    (hsha : env.SHA256 b = some d)
    (hfit : (contentPath output_dir d).length + 1 ≤ MAX_PATH_LENGTH) :
    save_certificate env fs cert output_dir overwrite worker_id
      = save_certificate_store env fs b (contentPath output_dir d) overwrite := by
  have hsuffix : snprintf [] 5 ".pem".toList = (".pem".toList, 4) := by decide
  have hlen : (lowercase_hex d.bytes).length = SHA256_HEX_LENGTH := by
    rw [lowercase_hex_length, d.size_eq]
    rfl
  have htake : (lowercase_hex d.bytes).take SHA256_HEX_LENGTH = lowercase_hex d.bytes :=
    List.take_of_length_le (le_of_eq hlen)
  have hpath : snprintf [] MAX_PATH_LENGTH
      (output_dir ++ "/".toList ++ (lowercase_hex d.bytes ++ ".pem".toList))
      = (contentPath output_dir d, ((contentPath output_dir d).length : Int)) :=
    snprintf_fits [] MAX_PATH_LENGTH _ (by unfold contentPath at hfit; omega) (by decide)
  have hlt : ¬ (((contentPath output_dir d).length : Int) ≥ (MAX_PATH_LENGTH : Int)) := by
    have : (contentPath output_dir d).length < MAX_PATH_LENGTH := by omega
    omega
  have h45 : ¬ ((4 : Int) ≥ 5) := by decide
  unfold save_certificate
  simp only [hbio, Bool.not_true, Bool.false_eq_true, if_false, hpem,
    sha256sum_eq env.SHA256 b d hsha, hsuffix, htake, hpath, hlt, h45]

/-- The part of `save_certificate` before `fopen` does not look at the file system:
either it fails with `-1` and the same diagnostic on every file system, or it
continues at line 63 with the same PEM text and path on every file system. -/
theorem save_certificate_pre (env : SaveEnv) (cert : X509) (output_dir : CStr)
    (overwrite : Bool) (worker_id : Int) :
    (∃ dg, ∀ fs, save_certificate env fs cert output_dir overwrite worker_id
        = ⟨-1, fs, dg, none⟩)
    ∨ (∃ data path, env.PEM_write_bio_X509 cert = some data
        ∧ ∀ fs, save_certificate env fs cert output_dir overwrite worker_id
            = save_certificate_store env fs data path overwrite) := by
  unfold save_certificate
  by_cases hbio : env.BIO_new = true
  · cases hpem : env.PEM_write_bio_X509 cert with
    | none =>
      exact Or.inl ⟨SaveDiag.pemFailed, fun fs => by
        simp only [hbio, Bool.not_true, Bool.false_eq_true, if_false]⟩
    | some data =>
      cases hsha : sha256sum env.SHA256 (some data) (SHA256_HEX_LENGTH + 5) with
      | none =>
        exact Or.inl ⟨SaveDiag.shaFailed, fun fs => by
          simp only [hbio, Bool.not_true, Bool.false_eq_true, if_false, hsha]⟩
      | some hex =>
        by_cases h1 : (snprintf [] 5 ".pem".toList).2 ≥ 5
        · exact Or.inl ⟨SaveDiag.suffixOverflow, fun fs => by
            simp only [hbio, Bool.not_true, Bool.false_eq_true, if_false, hsha, if_pos h1]⟩
        · by_cases h2 : (snprintf [] MAX_PATH_LENGTH (output_dir ++ "/".toList
              ++ (hex.take SHA256_HEX_LENGTH ++ (snprintf [] 5 ".pem".toList).1))).2
              ≥ (MAX_PATH_LENGTH : Int)
          · exact Or.inl ⟨SaveDiag.pathTooLong, fun fs => by
              simp only [hbio, Bool.not_true, Bool.false_eq_true, if_false, hsha, if_neg h1,
                if_pos h2]⟩
          · exact Or.inr ⟨data, (snprintf [] MAX_PATH_LENGTH (output_dir ++ "/".toList
              ++ (hex.take SHA256_HEX_LENGTH ++ (snprintf [] 5 ".pem".toList).1))).1, rfl,
              fun fs => by
                simp only [hbio, Bool.not_true, Bool.false_eq_true, if_false, hsha,
                  if_neg h1, if_neg h2]⟩
  · exact Or.inl ⟨SaveDiag.bioFailed, fun fs => by
      simp only [hbio, Bool.not_false, if_true]⟩

/-- Lines 63-89 always call `fopen` on `file_path`, in the mode chosen by `overwrite`. -/
theorem save_certificate_store_opened (env : SaveEnv) (fs : FileSys) (data : Bytes)
    (file_path : CStr) (overwrite : Bool) :
    (save_certificate_store env fs data file_path overwrite).opened
      = some (file_path, if overwrite then Mode.w else Mode.wx) := by
  unfold save_certificate_store
  dsimp only
  split <;> split <;> rfl

theorem Digest.eq_of_bytes (d1 d2 : Digest) (h : d1.bytes = d2.bytes) : d1 = d2 := by
  cases d1
  cases d2
  cases h
  rfl

/-- Claim C3. Content addressing in `save_certificate`: for a certificate whose PEM
encoding is `b`, with digest `d = SHA256(b)`, and an `output_dir` for which the path
fits the 1024 byte buffer (terminator included), the path handed to `fopen` is
`output_dir`, a slash, the
hexadecimal text of `d` and `.pem`; that text is what `sha256sum` produced, has 64
characters (two per digest byte, in order, high nibble first), all among `0-9a-f`;
the file name has 68 characters; the hexadecimal text determines the digest; and any
certificate with the same encoded bytes gets the same path. -/
theorem save_certificate_content_address (env : SaveEnv) (fs : FileSys) (cert : X509)
    (output_dir : CStr) (overwrite : Bool) (worker_id : Int) (b : Bytes) (d : Digest)
    (hbio : env.BIO_new = true) (hpem : env.PEM_write_bio_X509 cert = some b)
    (hsha : env.SHA256 b = some d)
    (hfit : (contentPath output_dir d).length + 1 ≤ MAX_PATH_LENGTH) :
    (save_certificate env fs cert output_dir overwrite worker_id).opened
        = some (output_dir ++ "/".toList ++ (lowercase_hex d.bytes ++ ".pem".toList),
                if overwrite then Mode.w else Mode.wx)
    ∧ sha256sum env.SHA256 (some b) (SHA256_HEX_LENGTH + 5) = some (lowercase_hex d.bytes)
    ∧ (lowercase_hex d.bytes).length = 64
    ∧ (∀ c ∈ lowercase_hex d.bytes, c ∈ "0123456789abcdef".toList)
    ∧ (lowercase_hex d.bytes ++ ".pem".toList).length = 68
    ∧ (∀ d1 d2 : Digest, lowercase_hex d1.bytes = lowercase_hex d2.bytes → d1 = d2)
    ∧ (∀ (fs2 : FileSys) (cert2 : X509) (overwrite2 : Bool) (worker_id2 : Int),
        env.PEM_write_bio_X509 cert2 = some b →
        ((save_certificate env fs2 cert2 output_dir overwrite2 worker_id2).opened).map Prod.fst
          = ((save_certificate env fs cert output_dir overwrite worker_id).opened).map
              Prod.fst) := by
  have hopened : ∀ (fs0 : FileSys) (cert0 : X509) (ov : Bool) (wid : Int),
      env.PEM_write_bio_X509 cert0 = some b →
      (save_certificate env fs0 cert0 output_dir ov wid).opened
        = some (contentPath output_dir d, if ov then Mode.w else Mode.wx) := by
    intro fs0 cert0 ov wid h0
    rw [save_certificate_at_fopen env fs0 cert0 output_dir ov wid b d hbio h0 hsha hfit]
    exact save_certificate_store_opened env fs0 b (contentPath output_dir d) ov
  have hlen : (lowercase_hex d.bytes).length = 64 := by
    rw [lowercase_hex_length, d.size_eq]
    rfl
  refine ⟨hopened fs cert overwrite worker_id hpem, sha256sum_eq env.SHA256 b d hsha, hlen,
    lowercase_hex_chars d.bytes, ?_, ?_, ?_⟩
  · rw [List.length_append, hlen]
    rfl
  · intro d1 d2 h
    exact Digest.eq_of_bytes d1 d2 (lowercase_hex_injective _ _ h)
  · intro fs2 cert2 ov2 wid2 h2
    rw [hopened fs2 cert2 ov2 wid2 h2, hopened fs cert overwrite worker_id hpem]
    rfl

/-- Witness for C3: the sample certificate stored under `out`. -/
theorem save_certificate_content_address_witness :
    (save_certificate sampleSaveEnv emptyFs ⟨0⟩ "out".toList false 1).opened
      = some ("out".toList ++ "/".toList
          ++ (lowercase_hex sampleDigest.bytes ++ ".pem".toList), Mode.wx)
    ∧ (lowercase_hex sampleDigest.bytes).length = 64 :=
  ⟨(save_certificate_content_address sampleSaveEnv emptyFs ⟨0⟩ "out".toList false 1
      [1, 2, 3] sampleDigest rfl rfl rfl (by decide)).1,
   (save_certificate_content_address sampleSaveEnv emptyFs ⟨0⟩ "out".toList false 1
      [1, 2, 3] sampleDigest rfl rfl rfl (by decide)).2.2.1⟩

/-! ## Deduplication and overwriting -/

/-- Exclusive create on an existing path: the dedup hit. -/
theorem save_certificate_store_exists (env : SaveEnv) (fs : FileSys) (data : Bytes)
    (file_path : CStr) (h : (fs.files file_path).isSome = true) :
    save_certificate_store env fs data file_path false
      = ⟨0, fs, SaveDiag.alreadyExists file_path, some (file_path, Mode.wx)⟩ := by
  simp [save_certificate_store, fopen, h]

/-- Storing twice with `overwrite = false`, from line 63 on: the second call changes
nothing, and succeeds when the first one did. -/
theorem save_certificate_store_twice (env : SaveEnv) (fs : FileSys) (data : Bytes)
    (file_path : CStr) :
    (save_certificate_store env (save_certificate_store env fs data file_path false).fs
        data file_path false).fs
      = (save_certificate_store env fs data file_path false).fs
    ∧ ((save_certificate_store env fs data file_path false).result = 0 →
        (save_certificate_store env (save_certificate_store env fs data file_path false).fs
          data file_path false).result = 0) := by
  by_cases hex : (fs.files file_path).isSome = true
  · rw [save_certificate_store_exists env fs data file_path hex]
    dsimp only
    rw [save_certificate_store_exists env fs data file_path hex]
    exact ⟨rfl, fun _ => rfl⟩
  · by_cases hden : fs.denied file_path = true
    · have e : save_certificate_store env fs data file_path false
          = ⟨-1, fs, SaveDiag.openFailed file_path Errno.EACCES,
              some (file_path, Mode.wx)⟩ := by
        simp [save_certificate_store, fopen, hex, hden]
      rw [e]
      dsimp only
      rw [e]
      exact ⟨rfl, fun h => absurd h (by decide)⟩
    · have hsome : ((save_certificate_store env fs data file_path false).fs.files
          file_path).isSome = true := by
        simp only [save_certificate_store, fopen, hex, hden, Bool.false_eq_true, if_false,
          fwrite, fclose]
        split <;> simp
      rw [save_certificate_store_exists env _ data file_path hsome]
      exact ⟨rfl, fun _ => rfl⟩

/-- Claim C4. With `overwrite = false`, on every file system in which the path that
`save_certificate` opens (the content address) already exists, the call returns `0`,
reports "already exists", and leaves the file system as it was: the existing file keeps
its bytes and no file is created.  Storing the same certificate twice in a row gives the
file system of storing it once, and the second call returns `0` whenever the first
did (in particular both return `0` when the path existed before). -/
theorem save_certificate_dedup (env : SaveEnv) (fs : FileSys) (cert : X509)
    (output_dir : CStr) (worker_id : Int) (path : CStr) (mode : Mode)
    (hopen : (save_certificate env fs cert output_dir false worker_id).opened
      = some (path, mode))
    (hexists : (fs.files path).isSome = true) :
    (save_certificate env fs cert output_dir false worker_id).result = 0
    ∧ (save_certificate env fs cert output_dir false worker_id).fs = fs
    ∧ (save_certificate env fs cert output_dir false worker_id).diag
        = SaveDiag.alreadyExists path
    ∧ (save_certificate env (save_certificate env fs cert output_dir false worker_id).fs
        cert output_dir false worker_id).result = 0
    ∧ (∀ fs0 : FileSys,
        (save_certificate env (save_certificate env fs0 cert output_dir false worker_id).fs
            cert output_dir false worker_id).fs
          = (save_certificate env fs0 cert output_dir false worker_id).fs
        ∧ ((save_certificate env fs0 cert output_dir false worker_id).result = 0 →
            (save_certificate env
              (save_certificate env fs0 cert output_dir false worker_id).fs
              cert output_dir false worker_id).result = 0)) := by
  rcases save_certificate_pre env cert output_dir false worker_id with
    ⟨dg, hpre⟩ | ⟨data, p, _, hpre⟩
  · rw [hpre fs] at hopen
    exact absurd hopen (by simp)
  · have hp : p = path := by
      rw [hpre fs, save_certificate_store_opened] at hopen
      injection hopen with h
      exact (Prod.mk.inj h).1
    subst hp
    have e := save_certificate_store_exists env fs data p hexists
    refine ⟨by rw [hpre fs, e], by rw [hpre fs, e], by rw [hpre fs, e], ?_, ?_⟩
    · rw [hpre fs, e]
      dsimp only
      rw [hpre fs, e]
    · intro fs0
      rw [hpre fs0, hpre]
      exact save_certificate_store_twice env fs0 data p

/-- Witness for C4: the sample certificate stored where its file already exists. -/
theorem save_certificate_dedup_witness :
    (save_certificate sampleSaveEnv storedFs ⟨0⟩ "out".toList false 1).result = 0
    ∧ (save_certificate sampleSaveEnv storedFs ⟨0⟩ "out".toList false 1).fs = storedFs :=
  ⟨(save_certificate_dedup sampleSaveEnv storedFs ⟨0⟩ "out".toList 1
      (contentPath "out".toList sampleDigest) Mode.wx (by decide) (by decide)).1,
   (save_certificate_dedup sampleSaveEnv storedFs ⟨0⟩ "out".toList 1
      (contentPath "out".toList sampleDigest) Mode.wx (by decide) (by decide)).2.1⟩

/-- With `overwrite` set, lines 63-89 never report "already exists". -/
theorem save_certificate_store_overwrite_diag (env : SaveEnv) (fs : FileSys) (data : Bytes)
    (file_path : CStr) (p : CStr) :
    (save_certificate_store env fs data file_path true).diag ≠ SaveDiag.alreadyExists p := by
  unfold save_certificate_store
  dsimp only
  split
  · simp
  · split <;> simp

/-- With `overwrite = true`, on every file system (path absent, or present with any
content) on which the `fopen` succeeds, the `fwrite` returns the full count and the
flush in `fclose` brings every byte to the file, `save_certificate` opens the path in the
truncating mode `"w"`, returns `0`, and afterwards the file at that path holds exactly
the PEM bytes of the certificate, every other file being untouched; and on no file
system at all does a call with `overwrite = true` take the `EEXIST` dedup branch. -/
theorem save_certificate_overwrite_flushed (env : SaveEnv) (fs fs1 : FileSys) (cert : X509)
    (output_dir : CStr) (worker_id : Int) (path : CStr) (mode : Mode) (data : Bytes)
    (hpem : env.PEM_write_bio_X509 cert = some data)
    (hopen : (save_certificate env fs cert output_dir true worker_id).opened
      = some (path, mode))
    (hopened : fopen fs path mode = Except.ok fs1)
    (hwritten : (fwrite data (env.fwrite_count data)).2 = data.length)
    (hflushed : data.length ≤ env.fclose_flushed data) :
    mode = Mode.w
    ∧ (save_certificate env fs cert output_dir true worker_id).result = 0
    ∧ (save_certificate env fs cert output_dir true worker_id).fs.files path = some data
    ∧ (∀ q, q ≠ path →
        (save_certificate env fs cert output_dir true worker_id).fs.files q = fs.files q)
    ∧ (save_certificate env fs cert output_dir true worker_id).diag = SaveDiag.saved path
    ∧ (∀ (fs0 : FileSys) (p : CStr),
        (save_certificate env fs0 cert output_dir true worker_id).diag
          ≠ SaveDiag.alreadyExists p) := by
  rcases save_certificate_pre env cert output_dir true worker_id with
    ⟨dg, hpre⟩ | ⟨data1, p, hpem1, hpre⟩
  · rw [hpre fs] at hopen
    exact absurd hopen (by simp)
  · have hd : data1 = data := by
      rw [hpem] at hpem1
      exact (Option.some.inj hpem1).symm
    subst hd
    have hpm : p = path ∧ Mode.w = mode := by
      rw [hpre fs, save_certificate_store_opened] at hopen
      injection hopen with h
      exact ⟨(Prod.mk.inj h).1, (Prod.mk.inj h).2⟩
    obtain ⟨hp, hm⟩ := hpm
    subst hp
    subst hm
    have hfs1 : fs1 = { fs with files := Function.update fs.files p (some []) } := by
      unfold fopen at hopened
      by_cases hden : fs.denied p = true
      · simp [hden] at hopened
      · simp only [hden, Bool.false_eq_true, if_false] at hopened
        exact (Except.ok.inj hopened).symm
    have htake : data1.take (env.fwrite_count data1) = data1 := by
      apply List.take_of_length_le
      simp only [fwrite] at hwritten
      omega
    have hbuf : (fwrite data1 (env.fwrite_count data1)).1 = data1 := htake
    have htake2 : data1.take (env.fclose_flushed data1) = data1 :=
      List.take_of_length_le hflushed
    have e : save_certificate_store env fs data1 p true
        = ⟨0, (fclose fs1 p data1 (env.fclose_flushed data1)).1, SaveDiag.saved p,
            some (p, Mode.w)⟩ := by
      unfold save_certificate_store
      simp only [if_true, hopened, hwritten, ne_eq, not_true_eq_false, if_false, hbuf]
    refine ⟨rfl, by rw [hpre fs, e], ?_, ?_, by rw [hpre fs, e], ?_⟩
    · rw [hpre fs, e, hfs1]
      simp [fclose, htake2]
    · intro q hq
      rw [hpre fs, e, hfs1]
      simp [fclose, Function.update, hq]
    · intro fs0 p0
      rw [hpre fs0]
      exact save_certificate_store_overwrite_diag env fs0 data1 p p0

/-- Claim C5 (evaluation at the failing input). With `overwrite = true` the certificate
encodes to the three bytes `1, 2, 3`; the `fopen` call (mode `"w"`) succeeds, the `fwrite`
call returns the full count `3`, and the flush inside `fclose` gets one byte into the
file.  `fclose` returns `EOF`, which `save_certificate` does not look at: it returns `0`
and reports the certificate saved, while the file at the content address holds one byte.
The same happens when the path held other bytes before: the `fopen` call has emptied the
file, so one byte is all it holds.  (When the flush brings all three bytes to the file,
the file holds exactly these, also where it held five bytes before.) -/
theorem save_certificate_overwrite_drops_fclose :
    shortFlushEnv.PEM_write_bio_X509 ⟨0⟩ = some [1, 2, 3]
    ∧ (save_certificate shortFlushEnv emptyFs ⟨0⟩ "out".toList true 1).opened
        = some (contentPath "out".toList sampleDigest, Mode.w)
    ∧ fopen emptyFs (contentPath "out".toList sampleDigest) Mode.w
        = Except.ok (emptyFs.withFile (contentPath "out".toList sampleDigest) (some []))
    ∧ fwrite [1, 2, 3] (shortFlushEnv.fwrite_count [1, 2, 3]) = ([1, 2, 3], 3)
    ∧ (fclose (emptyFs.withFile (contentPath "out".toList sampleDigest) (some []))
        (contentPath "out".toList sampleDigest) [1, 2, 3]
        (shortFlushEnv.fclose_flushed [1, 2, 3])).2 = EOF
    ∧ (save_certificate shortFlushEnv emptyFs ⟨0⟩ "out".toList true 1).result = 0
    ∧ (save_certificate shortFlushEnv emptyFs ⟨0⟩ "out".toList true 1).diag
        = SaveDiag.saved (contentPath "out".toList sampleDigest)
    ∧ (save_certificate shortFlushEnv emptyFs ⟨0⟩ "out".toList true 1).fs.files
        (contentPath "out".toList sampleDigest) = some [1]
    ∧ (save_certificate shortFlushEnv storedFs ⟨0⟩ "out".toList true 1).result = 0
    ∧ (save_certificate shortFlushEnv storedFs ⟨0⟩ "out".toList true 1).fs.files
        (contentPath "out".toList sampleDigest) = some [1]
    ∧ (save_certificate shortFlushEnv longStoredFs ⟨0⟩ "out".toList true 1).result = 0
    ∧ (save_certificate shortFlushEnv longStoredFs ⟨0⟩ "out".toList true 1).fs.files
        (contentPath "out".toList sampleDigest) = some [1]
    ∧ (save_certificate sampleSaveEnv longStoredFs ⟨0⟩ "out".toList true 1).result = 0
    ∧ (save_certificate sampleSaveEnv longStoredFs ⟨0⟩ "out".toList true 1).fs.files
        (contentPath "out".toList sampleDigest) = some [1, 2, 3] := by
  refine ⟨rfl, by decide, rfl, by decide, by decide, by decide, by decide, by decide,
    by decide, by decide, by decide, by decide, by decide, by decide⟩

/-! ## `get_ssl_error` -/

theorem snprintf_short (old : CStr) (size : Nat) (text : CStr) (hs : 1 ≤ size)
    (ht : text.length ≤ 2147483647) :
    snprintf old size text = (text.take (size - 1), (text.length : Int)) := by
  unfold snprintf
  have h0 : size ≠ 0 := by omega
  have h2 : text.length ≤ INT_MAX := by
    unfold INT_MAX
    omega
  simp [h0, h2]

theorem errorEntry_length_le (errString : Nat → CStr) (e : Nat) :
    (errorEntry (ERR_error_string_n errString e 256)).length ≤ 263 := by
  simp only [errorEntry, ERR_error_string_n, List.length_append, List.length_take]
  have : " error: ".toList.length = 8 := by decide
  omega

theorem get_ssl_error_loop_full (errString : Nat → CStr) (max_length : Nat)
    (q : List ℕ+) (msg : CStr) (cur : Nat) :
    get_ssl_error_loop errString max_length q msg cur true = ⟨msg, cur, true, q.drop 1⟩ := by
  cases q with
  | nil => rfl
  | cons e rest => simp [get_ssl_error_loop]

/-- One round of the loop on an entry that fits behind the message. -/
theorem get_ssl_error_loop_fit (errString : Nat → CStr) (max_length : Nat) (e : ℕ+)
    (rest : List ℕ+) (msg : CStr)
    (hfit : msg.length + (errorEntry (ERR_error_string_n errString e.val 256)).length
      < max_length) :
    get_ssl_error_loop errString max_length (e :: rest) msg msg.length false
      = get_ssl_error_loop errString max_length rest
          (msg ++ errorEntry (ERR_error_string_n errString e.val 256))
          (msg ++ errorEntry (ERR_error_string_n errString e.val 256)).length false := by
  have hle := errorEntry_length_le errString e.val
  have hs := snprintf_short (msg.drop msg.length) (max_length - msg.length)
    (errorEntry (ERR_error_string_n errString e.val 256)) (by omega) (by omega)
  have htake : (errorEntry (ERR_error_string_n errString e.val 256)).take
      (max_length - msg.length - 1) = errorEntry (ERR_error_string_n errString e.val 256) :=
    List.take_of_length_le (by omega)
  rw [get_ssl_error_loop]
  simp only [Bool.false_eq_true, if_false, hs, htake, List.take_length, Int.toNat_ofNat,
    List.length_append]
  rw [if_neg (by omega)]

/-- One round of the loop on an entry that does not fit: `snprintf` stores its
truncated beginning, `buffer_full` is set, and the next evaluation of the loop
condition pops one more error before the loop ends. -/
theorem get_ssl_error_loop_nofit (errString : Nat → CStr) (max_length : Nat) (e : ℕ+)
    (rest : List ℕ+) (msg : CStr) (hlt : msg.length < max_length)
    (hfit : ¬ (msg.length + (errorEntry (ERR_error_string_n errString e.val 256)).length
      < max_length)) :
    get_ssl_error_loop errString max_length (e :: rest) msg msg.length false
      = ⟨msg ++ (errorEntry (ERR_error_string_n errString e.val 256)).take
            (max_length - msg.length - 1), msg.length, true, rest.drop 1⟩ := by
  have hle := errorEntry_length_le errString e.val
  have hs := snprintf_short (msg.drop msg.length) (max_length - msg.length)
    (errorEntry (ERR_error_string_n errString e.val 256)) (by omega) (by omega)
  rw [get_ssl_error_loop]
  simp only [Bool.false_eq_true, if_false, hs, List.take_length, Int.toNat_ofNat]
  rw [if_pos (by omega), get_ssl_error_loop_full]

/-- The loop leaves the concatenation of the message and all entries, cut to
`max_length - 1` characters, and sets `buffer_full` exactly when that concatenation
does not fit. -/
theorem get_ssl_error_loop_message (errString : Nat → CStr) (max_length : Nat)
    (q : List ℕ+) (msg : CStr) (hlt : msg.length < max_length) :
    (get_ssl_error_loop errString max_length q msg msg.length false).error_message
      = (msg ++ (errorEntries errString q).flatten).take (max_length - 1)
    ∧ ((get_ssl_error_loop errString max_length q msg msg.length false).buffer_full = false
        ↔ (msg ++ (errorEntries errString q).flatten).length < max_length) := by
  induction q generalizing msg with
  | nil =>
    simp only [get_ssl_error_loop, errorEntries, List.map_nil, List.flatten_nil,
      List.append_nil]
    exact ⟨(List.take_of_length_le (by omega)).symm, by simp [hlt]⟩
  | cons e rest ih =>
    have hent : errorEntries errString (e :: rest)
        = errorEntry (ERR_error_string_n errString e.val 256) :: errorEntries errString rest :=
      rfl
    by_cases hfit : msg.length + (errorEntry (ERR_error_string_n errString e.val 256)).length
        < max_length
    · rw [get_ssl_error_loop_fit errString max_length e rest msg hfit, hent,
        List.flatten_cons, ← List.append_assoc]
      exact ih _ (by rw [List.length_append]; exact hfit)
    · rw [get_ssl_error_loop_nofit errString max_length e rest msg hlt hfit, hent,
        List.flatten_cons, ← List.append_assoc]
      dsimp only
      constructor
      · have h1 : max_length - 1
            ≤ (msg ++ errorEntry (ERR_error_string_n errString e.val 256)).length := by
          rw [List.length_append]
          omega
        have h2 : msg.length ≤ max_length - 1 := by omega
        have h3 : max_length - msg.length - 1 = max_length - 1 - msg.length := by omega
        rw [List.take_append_of_le_length h1, List.take_append_eq_append_take,
          List.take_of_length_le h2, h3]
      · simp only [List.length_append] at *
        constructor
        · intro h; exact absurd h (by decide)
        · intro h; omega

/-- When every entry fits, the loop empties the queue. -/
theorem get_ssl_error_loop_queue_fit (errString : Nat → CStr) (max_length : Nat)
    (q : List ℕ+) (msg : CStr)
    (hfit : (msg ++ (errorEntries errString q).flatten).length < max_length) :
    (get_ssl_error_loop errString max_length q msg msg.length false).queue = [] := by
  induction q generalizing msg with
  | nil => rfl
  | cons e rest ih =>
    have hent : errorEntries errString (e :: rest)
        = errorEntry (ERR_error_string_n errString e.val 256) :: errorEntries errString rest :=
      rfl
    rw [hent, List.flatten_cons, ← List.append_assoc] at hfit
    have h1 : msg.length + (errorEntry (ERR_error_string_n errString e.val 256)).length
        < max_length := by
      simp only [List.length_append] at hfit
      omega
    rw [get_ssl_error_loop_fit errString max_length e rest msg h1]
    exact ih _ hfit

/-- When the first `k` entries fit and the next one does not, the loop has popped
`k + 2` errors (all that are left, if fewer). -/
theorem get_ssl_error_loop_queue_nofit (errString : Nat → CStr) (max_length : Nat)
    (k : Nat) (q : List ℕ+) (msg : CStr) (hk : k < q.length)
    (hfit : (msg ++ ((errorEntries errString q).take k).flatten).length < max_length)
    (hno : ¬ (msg ++ ((errorEntries errString q).take (k + 1)).flatten).length < max_length) :
    (get_ssl_error_loop errString max_length q msg msg.length false).queue
      = q.drop (k + 2) := by
  induction k generalizing q msg with
  | zero =>
    cases q with
    | nil => simp at hk
    | cons e rest =>
      have hent : errorEntries errString (e :: rest)
          = errorEntry (ERR_error_string_n errString e.val 256)
              :: errorEntries errString rest := rfl
      rw [hent] at hfit hno
      simp only [List.take_zero, List.flatten_nil, List.append_nil, zero_add,
        List.take_succ_cons, List.flatten_cons, List.length_append] at hfit hno
      rw [get_ssl_error_loop_nofit errString max_length e rest msg hfit (by omega)]
      rfl
  | succ k ih =>
    cases q with
    | nil => simp at hk
    | cons e rest =>
      have hent : errorEntries errString (e :: rest)
          = errorEntry (ERR_error_string_n errString e.val 256)
              :: errorEntries errString rest := rfl
      rw [hent] at hfit hno
      simp only [List.take_succ_cons, List.flatten_cons] at hfit hno
      rw [← List.append_assoc] at hfit hno
      have h1 : msg.length + (errorEntry (ERR_error_string_n errString e.val 256)).length
          < max_length := by
        simp only [List.length_append] at hfit
        omega
      rw [get_ssl_error_loop_fit errString max_length e rest msg h1]
      rw [ih rest _ (by simpa using hk) hfit hno]
      rfl

theorem get_ssl_error_unfold (errString : Nat → CStr) (old : CStr) (max_length : Nat)
    (q : List ℕ+) (h : 1 ≤ max_length) :
    get_ssl_error errString (some old) max_length q
      = (!(get_ssl_error_loop errString max_length q [] ([] : CStr).length false).buffer_full,
         some (get_ssl_error_loop errString max_length q [] ([] : CStr).length false).error_message,
         (get_ssl_error_loop errString max_length q [] ([] : CStr).length false).queue) := by
  have h0 : max_length ≠ 0 := by omega
  simp only [get_ssl_error, h0, if_false, List.length_nil]

/-- Claim C8, refuted as stated. With an 8 byte buffer and one queued error whose entry
`" error: boom"` has 12 characters, `get_ssl_error` returns `false` and leaves the
truncated fragment `" error:"` in the message: the message is not the concatenation of
complete entries of any part of the queue. -/
theorem get_ssl_error_leaves_fragment :
    get_ssl_error sampleErrString (some []) 8 [1] = (false, some " error:".toList, [])
    ∧ ¬ ∃ k : Nat, (get_ssl_error sampleErrString (some []) 8 [1]).2.1
        = some ((errorEntries sampleErrString (([1] : List ℕ+).take k)).flatten) := by
  have h : get_ssl_error sampleErrString (some []) 8 [1]
      = (false, some " error:".toList, []) := by decide
  refine ⟨h, ?_⟩
  rintro ⟨k, hk⟩
  rw [h] at hk
  cases k with
  | zero => exact absurd hk (by decide)
  | succ n =>
    have e : (([1] : List ℕ+).take (n + 1)) = [1] := by simp
    rw [e] at hk
    exact absurd hk (by decide)

/-- Claim C8, amended. For every buffer size `max_length >= 1` and every pending queue,
the message `get_ssl_error` leaves is the concatenation of the entries
`" error: <text>"` in queue order, cut to `max_length - 1` characters, and the result is
`true` exactly when the whole concatenation fits.  When every entry fits the message
holds all entries and the queue is empty.  When the first `k` entries fit and the next
one does not, the result is `false` and the message is those `k` complete entries
followed by the truncated beginning of the entry that did not fit. -/
theorem get_ssl_error_truncates (errString : Nat → CStr) (old : CStr) (max_length : Nat)
    (q : List ℕ+) (h : 1 ≤ max_length) :
    (get_ssl_error errString (some old) max_length q).2.1
        = some ((errorEntries errString q).flatten.take (max_length - 1))
    ∧ ((get_ssl_error errString (some old) max_length q).1 = true
        ↔ (errorEntries errString q).flatten.length < max_length)
    ∧ ((errorEntries errString q).flatten.length < max_length →
        get_ssl_error errString (some old) max_length q
          = (true, some (errorEntries errString q).flatten, []))
    ∧ (∀ k : Nat, k < q.length →
        ((errorEntries errString q).take k).flatten.length < max_length →
        ¬ ((errorEntries errString q).take (k + 1)).flatten.length < max_length →
        (get_ssl_error errString (some old) max_length q).1 = false
        ∧ (get_ssl_error errString (some old) max_length q).2.1
          = some (((errorEntries errString q).take k).flatten
               ++ ((errorEntries errString q).getD k []).take
                    (max_length - 1 - ((errorEntries errString q).take k).flatten.length))) := by
  have hnil : ([] : CStr).length < max_length := by simpa using h
  have hm := get_ssl_error_loop_message errString max_length q [] hnil
  rw [List.nil_append] at hm
  have hu := get_ssl_error_unfold errString old max_length q h
  have hmsg : (get_ssl_error errString (some old) max_length q).2.1
      = some ((errorEntries errString q).flatten.take (max_length - 1)) := by
    rw [hu, hm.1]
  have hret : ((get_ssl_error errString (some old) max_length q).1 = true
      ↔ (errorEntries errString q).flatten.length < max_length) := by
    rw [hu, ← hm.2]
    simp
  refine ⟨hmsg, hret, ?_, ?_⟩
  · intro hfit
    have hq := get_ssl_error_loop_queue_fit errString max_length q []
      (by rw [List.nil_append]; exact hfit)
    have h1 := hret.2 hfit
    have h3 : (get_ssl_error errString (some old) max_length q).2.2 = [] := by
      rw [hu, hq]
    have h2 : (get_ssl_error errString (some old) max_length q).2.1
        = some (errorEntries errString q).flatten := by
      rw [hmsg, List.take_of_length_le (by omega)]
    rw [← h1, ← h2, ← h3]
  · intro k hk hfit hno
    have hkE : k < (errorEntries errString q).length := by
      simpa [errorEntries] using hk
    have hsplit : errorEntries errString q
        = (errorEntries errString q).take k
          ++ ((errorEntries errString q)[k] :: (errorEntries errString q).drop (k + 1)) := by
      rw [← List.drop_eq_getElem_cons hkE, List.take_append_drop]
    have hflat : (errorEntries errString q).flatten
        = ((errorEntries errString q).take k).flatten
          ++ ((errorEntries errString q)[k]
              ++ ((errorEntries errString q).drop (k + 1)).flatten) := by
      have := congrArg List.flatten hsplit
      rwa [List.flatten_append, List.flatten_cons] at this
    have htk : ((errorEntries errString q).take (k + 1)).flatten
        = ((errorEntries errString q).take k).flatten ++ (errorEntries errString q)[k] := by
      rw [List.take_succ, List.flatten_append, List.getElem?_eq_getElem hkE]
      simp
    rw [htk, List.length_append] at hno
    have hfull : ¬ (errorEntries errString q).flatten.length < max_length := by
      rw [hflat]
      simp only [List.length_append]
      omega
    have h1 : (get_ssl_error errString (some old) max_length q).1 = false := by
      cases hb : (get_ssl_error errString (some old) max_length q).1 with
      | false => rfl
      | true => exact absurd (hret.1 hb) hfull
    have h2 : (get_ssl_error errString (some old) max_length q).2.1
        = some (((errorEntries errString q).take k).flatten
             ++ ((errorEntries errString q).getD k []).take
               (max_length - 1 - ((errorEntries errString q).take k).flatten.length)) := by
      rw [hmsg, List.getD_eq_getElem _ _ hkE]
      have e : (errorEntries errString q).flatten.take (max_length - 1)
          = ((errorEntries errString q).take k).flatten
             ++ ((errorEntries errString q)[k]).take
               (max_length - 1 - ((errorEntries errString q).take k).flatten.length) := by
        conv_lhs => rw [hflat]
        rw [List.take_append_eq_append_take, List.take_of_length_le (by omega),
          List.take_append_of_le_length (by omega)]
      rw [e]
    exact ⟨h1, h2⟩

/-- Witness for C8: a 16 byte buffer and two queued errors; the first entry fits, the
second is cut after three characters. -/
theorem get_ssl_error_truncates_witness :
    (get_ssl_error sampleErrString (some []) 16 [1, 2]).2.1
      = some ((errorEntries sampleErrString [1, 2]).flatten.take (16 - 1))
    ∧ (get_ssl_error sampleErrString (some []) 16 [1, 2]).2.1
      = some " error: boom er".toList :=
  ⟨(get_ssl_error_truncates sampleErrString [] 16 [1, 2] (by decide)).1, by decide⟩

/-! ## `download_certificate`: return value -/

/-- Claim C10 (evaluation at the failing inputs). `download_certificate` does not return
`-1` on every failure: `ret` holds the last result of `BIO_do_connect` when a later
`goto cleanup` is taken.  With a successful connect (`1`) and no peer certificate the
function returns `1`; with a successful connect and a failing `fopen` in
`save_certificate` it returns `1`; with a connect step that fails with `0` and no retry
signal it returns `0`, the success value; with a readiness wait that times out after a
step returning `0` it returns `0`. -/
theorem download_certificate_failure_values :
    (download_certificate (sampleTlsEnv (fun _ => sampleStep 1 false 1) none) 1 emptyFs []
        (some sampleHost) "8443".toList "out".toList sampleMessage 2048 3 false 7).map
      (fun r => (r.ret, r.exit)) = some (1, DlExit.noCertificate)
    ∧ (download_certificate (sampleTlsEnv (fun _ => sampleStep 1 false 1) (some ⟨0⟩)) 1
        ⟨fun _ => none, fun _ => true⟩ []
        (some sampleHost) "8443".toList "out".toList sampleMessage 2048 3 false 7).map
      (fun r => (r.ret, r.exit)) = some (1, DlExit.saveFailed)
    ∧ (download_certificate (sampleTlsEnv (fun _ => sampleStep 0 false 1) none) 1 emptyFs []
        (some sampleHost) "8443".toList "out".toList sampleMessage 2048 3 false 7).map
      (fun r => (r.ret, r.exit)) = some (0, DlExit.connectFailed)
    ∧ (download_certificate (sampleTlsEnv (fun _ => sampleStep 0 true 0) none) 1 emptyFs []
        (some sampleHost) "8443".toList "out".toList sampleMessage 2048 3 false 7).map
      (fun r => (r.ret, r.exit)) = some (0, DlExit.timedOut) := by
  refine ⟨by decide, by decide, by decide, by decide⟩

/-! ## The connect retry loop -/

theorem wait_for_bio_call (step : ConnectStep) (timeout : Int) :
    ∀ w ∈ (wait_for_bio step timeout 0).2.toList, w = ⟨false, timeout⟩ := by
  intro w hw
  unfold wait_for_bio at hw
  by_cases hfd : step.fd < 0
  · simp [hfd] at hw
  · simp [hfd] at hw
    exact hw

theorem wait_for_bio_ready (step : ConnectStep) (timeout : Int)
    (h : 0 < (wait_for_bio step timeout 0).1) :
    (wait_for_bio step timeout 0).2.toList = [⟨false, timeout⟩] := by
  unfold wait_for_bio at h ⊢
  by_cases hfd : step.fd < 0
  · simp [hfd] at h
  · simp [hfd]

/-- The loop from round `i` on, when the next `k` rounds go round again and round
`i + k` does not: with more than `k` rounds of fuel the loop ends, having made `k` or
`k + 1` waits, each limited to the full `timeout`. -/
theorem download_certificate_loop_run (env : TlsEnv) (hostname : Option CStr) (port : CStr)
    (max_length : Nat) (timeout : Int) (worker_id : Int) (msg : CStr) (k : Nat) :
    ∀ (i : Nat) (q : List ℕ+) (ws : List WaitCall) (fuel : Nat),
      (∀ j, j < k → retryRound (env.connect (i + j)) timeout) →
      ¬ retryRound (env.connect (i + k)) timeout →
      k < fuel →
      ∃ l extra, download_certificate_loop env hostname port max_length timeout worker_id fuel i
          msg q ws
          = some l
        ∧ l.waits = ws ++ extra
        ∧ (∀ w ∈ extra, w = ⟨false, timeout⟩)
        ∧ k ≤ extra.length ∧ extra.length ≤ k + 1
        ∧ l.ret = (env.connect (i + k)).ret
        ∧ (0 < (env.connect (i + k)).ret → l.exit = none ∧ l.result_message = msg)
        ∧ ((env.connect (i + k)).ret ≤ 0 → (env.connect (i + k)).should_retry = false →
            l.exit = some DlExit.dnsFailed ∨ l.exit = some DlExit.connectFailed)
        ∧ ((env.connect (i + k)).ret ≤ 0 → (env.connect (i + k)).should_retry = true →
            l.exit = some DlExit.timedOut
            ∧ l.result_message = (snprintf msg max_length
                (workerTargetText worker_id "Connection timeout to" hostname port)).1) := by
  induction k with
  | zero =>
    intro i q ws fuel _ hstop hfuel
    obtain ⟨f, rfl⟩ : ∃ f, fuel = f + 1 := ⟨fuel - 1, by omega⟩
    simp only [Nat.add_zero] at hstop ⊢
    unfold retryRound at hstop
    rw [download_certificate_loop]
    by_cases hret : (env.connect i).ret ≤ 0
    · by_cases hretry : (env.connect i).should_retry = true
      · have hw : (wait_for_bio (env.connect i) timeout 0).1 ≤ 0 := by
          by_contra hc
          exact hstop ⟨hret, hretry, by omega⟩
        simp only [hret, if_true, hretry, Bool.not_true, Bool.false_eq_true, if_false, hw]
        refine ⟨_, (wait_for_bio (env.connect i) timeout 0).2.toList, rfl, rfl,
          wait_for_bio_call _ _, Nat.zero_le _, ?_, rfl, ?_, ?_, ?_⟩
        · cases (wait_for_bio (env.connect i) timeout 0).2 <;> simp
        · intro h; omega
        · intro _ h; simp [hretry] at h
        · intro _ _; exact ⟨rfl, rfl⟩
      · have hretry2 : (env.connect i).should_retry = false := by
          cases h : (env.connect i).should_retry
          · rfl
          · exact absurd h hretry
        simp only [hret, if_true, hretry2, Bool.not_false]
        split
        · refine ⟨_, [], rfl, (List.append_nil ws).symm, by simp, le_refl _, by simp, rfl,
            ?_, ?_, ?_⟩
          · intro h; omega
          · intro _ _; exact Or.inl rfl
          · intro _ h; simp [hretry2] at h
        · refine ⟨_, [], rfl, (List.append_nil ws).symm, by simp, le_refl _, by simp, rfl,
            ?_, ?_, ?_⟩
          · intro h; omega
          · intro _ _; exact Or.inr rfl
          · intro _ h; simp [hretry2] at h
    · simp only [hret, if_false]
      refine ⟨_, [], rfl, (List.append_nil ws).symm, by simp, le_refl _, by simp, rfl,
        ?_, ?_, ?_⟩
      · intro _; exact ⟨rfl, rfl⟩
      · intro h; exact h.elim
      · intro h; exact h.elim
  | succ k ih =>
    intro i q ws fuel hretry hstop hfuel
    obtain ⟨f, rfl⟩ : ∃ f, fuel = f + 1 := ⟨fuel - 1, by omega⟩
    have h0 := hretry 0 (Nat.succ_pos k)
    rw [Nat.add_zero] at h0
    obtain ⟨hret, hsr, hw⟩ := h0
    have hw2 : ¬ (wait_for_bio (env.connect i) timeout 0).1 ≤ 0 := by omega
    have hidx : ∀ j, i + 1 + j = i + (j + 1) := fun j => by omega
    obtain ⟨l, extra, hl, hwaits, hall, hlo, hhi, hrest⟩ :=
      ih (i + 1) (q ++ (env.connect i).pushed)
        (ws ++ (wait_for_bio (env.connect i) timeout 0).2.toList) f
        (fun j hj => by rw [hidx]; exact hretry (j + 1) (by omega))
        (by rw [hidx]; exact hstop) (by omega)
    rw [hidx] at hrest
    rw [download_certificate_loop]
    simp only [hret, if_true, hsr, Bool.not_true, Bool.false_eq_true, if_false, hw2]
    refine ⟨l, (wait_for_bio (env.connect i) timeout 0).2.toList ++ extra, hl, ?_, ?_, ?_, ?_,
      hrest⟩
    · rw [hwaits, List.append_assoc]
    · intro w hw'
      rcases List.mem_append.1 hw' with h | h
      · exact wait_for_bio_call _ _ w h
      · exact hall w h
    · rw [wait_for_bio_ready _ _ hw]
      simp
      omega
    · rw [wait_for_bio_ready _ _ hw]
      simp
      omega

/-- As long as every round goes round again, the loop is still running when the fuel
is used up. -/
theorem download_certificate_loop_running (env : TlsEnv) (hostname : Option CStr) (port : CStr)
    (max_length : Nat) (timeout : Int) (worker_id : Int) (msg : CStr) :
    ∀ (fuel i : Nat) (q : List ℕ+) (ws : List WaitCall),
      (∀ j, j < fuel → retryRound (env.connect (i + j)) timeout) →
      download_certificate_loop env hostname port max_length timeout worker_id fuel i msg q ws =
          none := by
  intro fuel
  induction fuel with
  | zero => intro i q ws _; rfl
  | succ f ih =>
    intro i q ws hretry
    have h0 := hretry 0 (Nat.succ_pos f)
    rw [Nat.add_zero] at h0
    obtain ⟨hret, hsr, hw⟩ := h0
    have hw2 : ¬ (wait_for_bio (env.connect i) timeout 0).1 ≤ 0 := by omega
    rw [download_certificate_loop]
    simp only [hret, if_true, hsr, Bool.not_true, Bool.false_eq_true, if_false, hw2]
    apply ih
    intro j hj
    have : i + 1 + j = i + (j + 1) := by omega
    rw [this]
    exact hretry (j + 1) (by omega)

theorem waits_sum (timeout : Int) (ws : List WaitCall)
    (h : ∀ w ∈ ws, w = ⟨false, timeout⟩) :
    (ws.map WaitCall.tv_sec).sum = (ws.length : Int) * timeout := by
  induction ws with
  | nil => simp
  | cons w rest ih =>
    have hw : w = ⟨false, timeout⟩ := h w (by simp)
    have hr := ih (fun x hx => h x (by simp [hx]))
    rw [List.map_cons, List.sum_cons, hr, hw]
    simp only [List.length_cons]
    push_cast
    ring

/-- Claim C9, refuted as stated. With `timeout = 3` and a connect step that asks for a
retry twice (the descriptor being ready each time) before it succeeds, the loop makes two
waits, each limited to the full 3 seconds: the wait bounds add up to 6, more than the
timeout.  And when every step asks for a retry and every wait finds the descriptor ready,
the loop is still running after any number of rounds: nothing bounds the number of
waits. -/
theorem download_certificate_loop_waits_exceed_timeout :
    (download_certificate_loop (sampleTlsEnv twoRetries none) (some sampleHost)
        "8443".toList 2048 3 7 3 0 sampleMessage [] []).map (fun l => l.waits)
      = some [⟨false, 3⟩, ⟨false, 3⟩]
    ∧ (download_certificate_loop (sampleTlsEnv twoRetries none) (some sampleHost)
        "8443".toList 2048 3 7 3 0 sampleMessage [] []).map
          (fun l => (l.waits.map WaitCall.tv_sec).sum) = some 6
    ∧ ∀ fuel : Nat, download_certificate_loop (sampleTlsEnv alwaysRetry none) (some sampleHost)
        "8443".toList 2048 3 7 fuel 0 sampleMessage [] [] = none := by
  refine ⟨by decide, by decide, ?_⟩
  intro fuel
  apply download_certificate_loop_running
  intro j _
  show retryRound (sampleStep (-1) true 1) 3
  decide

/-- Claim C9, amended. In the connect retry loop every readiness wait is limited to the
full `timeout` (the time already spent is not deducted), so an attempt with `m` waits has
wait bounds adding up to `m * timeout`.  If the first `n` rounds go round again (the step
asks for a retry and the wait finds the descriptor ready) and round `n` does not, the
loop is still running after `n` rounds and ends in round `n`, after `n` or `n + 1` waits:
in success when the step returns a positive value, in failure when it fails without a
retry signal, and with the `Connection timeout` message when the readiness wait returns
no ready descriptor. -/
theorem download_certificate_loop_wait_bounds (env : TlsEnv) (hostname : Option CStr) (port : CStr)
    (max_length : Nat) (timeout : Int) (worker_id : Int) (msg : CStr) (q : List ℕ+)
    (n : Nat) (hretry : ∀ j, j < n → retryRound (env.connect j) timeout)
    (hstop : ¬ retryRound (env.connect n) timeout) :
    (∀ fuel, fuel ≤ n →
      download_certificate_loop env hostname port max_length timeout worker_id fuel 0 msg q [] =
          none)
    ∧ ∀ fuel, n < fuel →
      ∃ l,
        download_certificate_loop env hostname port max_length timeout worker_id fuel 0 msg q []
          = some l
        ∧ (∀ w ∈ l.waits, w.tv_sec = timeout)
        ∧ (l.waits.map WaitCall.tv_sec).sum = (l.waits.length : Int) * timeout
        ∧ n ≤ l.waits.length ∧ l.waits.length ≤ n + 1
        ∧ (0 < (env.connect n).ret → l.exit = none)
        ∧ ((env.connect n).ret ≤ 0 → (env.connect n).should_retry = false →
            l.exit = some DlExit.dnsFailed ∨ l.exit = some DlExit.connectFailed)
        ∧ ((env.connect n).ret ≤ 0 → (env.connect n).should_retry = true →
            (wait_for_bio (env.connect n) timeout 0).1 ≤ 0
            ∧ l.exit = some DlExit.timedOut
            ∧ l.result_message = (snprintf msg max_length
                (workerTargetText worker_id "Connection timeout to" hostname port)).1) := by
  constructor
  · intro fuel hfuel
    apply download_certificate_loop_running
    intro j hj
    rw [Nat.zero_add]
    exact hretry j (by omega)
  · intro fuel hfuel
    obtain ⟨l, extra, hl, hwaits, hall, hlo, hhi, _, hpos, hfail, htime⟩ :=
      download_certificate_loop_run env hostname port max_length timeout worker_id msg n 0 q [] fuel
        (fun j hj => by rw [Nat.zero_add]; exact hretry j hj)
        (by rw [Nat.zero_add]; exact hstop) hfuel
    rw [Nat.zero_add] at hpos hfail htime
    rw [List.nil_append] at hwaits
    subst hwaits
    refine ⟨l, hl, ?_, waits_sum timeout l.waits hall, hlo, hhi, fun h => (hpos h).1, hfail,
      ?_⟩
    · intro w hw
      rw [hall w hw]
    · intro hret hsr
      refine ⟨?_, htime hret hsr⟩
      by_contra hc
      exact hstop ⟨hret, hsr, by omega⟩

/-- Witness for C9: two retries, then success; the loop ends in the third round. -/
theorem download_certificate_loop_wait_bounds_witness :
    ∃ l, download_certificate_loop (sampleTlsEnv twoRetries none) (some sampleHost) "8443".toList
        2048 3 7
        3 0 sampleMessage [] [] = some l
      ∧ (l.waits.map WaitCall.tv_sec).sum = (l.waits.length : Int) * 3
      ∧ 2 ≤ l.waits.length :=
  let ⟨l, h1, _, h3, h4, _⟩ :=
    (download_certificate_loop_wait_bounds (sampleTlsEnv twoRetries none) (some sampleHost)
      "8443".toList 2048 3 7 sampleMessage [] 2 (by decide) (by decide)).2 3 (by decide)
  ⟨l, h1, h3, h4⟩

/-! ## `download_certificate`: the result message -/

theorem snprintf_fst (old : CStr) (size : Nat) (text : CStr) (hs : 1 ≤ size) :
    (snprintf old size text).1 = text.take (size - 1) := by
  have h0 : size ≠ 0 := by omega
  simp [snprintf, h0]

/-- The message the connect loop leaves: untouched when the loop ends with a successful
connect, otherwise the text of the exit taken, cut to the buffer. -/
theorem download_certificate_loop_message (env : TlsEnv) (hostname : Option CStr) (port : CStr)
    (max_length : Nat) (timeout : Int) (worker_id : Int) (msg : CStr)
    (hmax : 1 ≤ max_length) :
    ∀ (fuel i : Nat) (q : List ℕ+) (ws : List WaitCall) (l : LoopEnd),
      download_certificate_loop env hostname port max_length timeout worker_id fuel i msg q ws =
          some l →
      (l.exit = none → l.result_message = msg)
      ∧ (∀ x, l.exit = some x → ∀ t, failureText x worker_id hostname port = some t →
          l.result_message = t.take (max_length - 1)) := by
  intro fuel
  induction fuel with
  | zero => intro i q ws l h; simp [download_certificate_loop] at h
  | succ f ih =>
    intro i q ws l h
    rw [download_certificate_loop] at h
    by_cases hret : (env.connect i).ret ≤ 0
    · by_cases hsr : (env.connect i).should_retry = true
      · by_cases hw : (wait_for_bio (env.connect i) timeout 0).1 ≤ 0
        · simp only [hret, if_true, hsr, Bool.not_true, Bool.false_eq_true, if_false, hw,
            Option.some.injEq] at h
          subst h
          refine ⟨fun hx => by simp at hx, ?_⟩
          intro x hx t ht
          simp only [Option.some.injEq] at hx
          subst hx
          simp only [failureText, Option.some.injEq] at ht
          subst ht
          exact snprintf_fst _ _ _ hmax
        · simp only [hret, if_true, hsr, Bool.not_true, Bool.false_eq_true, if_false, hw] at h
          exact ih _ _ _ l h
      · have hsr2 : (env.connect i).should_retry = false := by
          cases hh : (env.connect i).should_retry
          · rfl
          · exact absurd hh hsr
        simp only [hret, if_true, hsr2, Bool.not_false] at h
        split at h
        · simp only [Option.some.injEq] at h
          subst h
          refine ⟨fun hx => by simp at hx, ?_⟩
          intro x hx t ht
          simp only [Option.some.injEq] at hx
          subst hx
          simp only [failureText, Option.some.injEq] at ht
          subst ht
          exact snprintf_fst _ _ _ hmax
        · simp only [Option.some.injEq] at h
          subst h
          refine ⟨fun hx => by simp at hx, ?_⟩
          intro x hx t ht
          simp only [Option.some.injEq] at hx
          subst hx
          simp only [failureText, Option.some.injEq] at ht
          subst ht
          exact snprintf_fst _ _ _ hmax
    · simp only [hret, if_false, Option.some.injEq] at h
      subst h
      exact ⟨fun _ => rfl, fun x hx => by simp at hx⟩

/-- The message `download_certificate` leaves at each exit other than `noCertificate` and
`success`: the text formatted for that exit, cut to the buffer. -/
theorem download_certificate_message (env : TlsEnv) (fuel : Nat) (fs : FileSys)
    (q : List ℕ+) (hostname : Option CStr) (port output_dir msg : CStr) (max_length : Nat)
    (timeout : Int) (overwrite : Bool) (worker_id : Int) (r : DlResult)
    (hmax : 1 ≤ max_length)
    (h : download_certificate env fuel fs q hostname port output_dir msg max_length timeout
      overwrite worker_id = some r) :
    ∀ t, failureText r.exit worker_id hostname port = some t →
      r.result_message = t.take (max_length - 1) := by
  intro t ht
  unfold download_certificate at h
  by_cases h1 : env.SSL_CTX_new = true
  swap
  · simp only [h1, Bool.not_false, if_true, Option.some.injEq, Bool.false_eq_true,
      Bool.not_eq_true] at h
    subst h
    simp only [failureText, Option.some.injEq] at ht
    subst ht
    exact snprintf_fst _ _ _ hmax
  by_cases h2 : env.BIO_new_ssl_connect = true
  swap
  · simp only [h1, h2, Bool.not_true, Bool.false_eq_true, if_false, Bool.not_false, if_true,
      Option.some.injEq] at h
    subst h
    simp only [failureText, Option.some.injEq] at ht
    subst ht
    exact snprintf_fst _ _ _ hmax
  by_cases h3 : env.BIO_get_ssl = true
  swap
  · simp only [h1, h2, h3, Bool.not_true, Bool.false_eq_true, if_false, Bool.not_false,
      if_true, Option.some.injEq] at h
    subst h
    simp only [failureText, Option.some.injEq] at ht
    subst ht
    exact snprintf_fst _ _ _ hmax
  simp only [h1, h2, h3, Bool.not_true, Bool.false_eq_true, if_false] at h
  split at h
  · simp only [Option.some.injEq] at h
    subst h
    simp only [failureText, Option.some.injEq] at ht
    subst ht
    exact snprintf_fst _ _ _ hmax
  split at h
  · simp only [Option.some.injEq] at h
    subst h
    simp only [failureText, Option.some.injEq] at ht
    subst ht
    exact snprintf_fst _ _ _ hmax
  split at h
  · simp only [Option.some.injEq] at h
    subst h
    simp only [failureText, Option.some.injEq] at ht
    subst ht
    exact snprintf_fst _ _ _ hmax
  split at h
  · exact absurd h (by simp)
  · rename_i l hl
    have hloop := download_certificate_loop_message env hostname port max_length timeout worker_id
        msg hmax
      fuel 0 q [] l hl
    split at h
    · rename_i x hx
      simp only [Option.some.injEq] at h
      subst h
      exact hloop.2 x hx t ht
    · rename_i hx
      split at h
      · simp only [Option.some.injEq] at h
        subst h
        simp [failureText] at ht
      · split at h
        · simp only [Option.some.injEq] at h
          subst h
          simp only [failureText, Option.some.injEq] at ht
          subst ht
          exact snprintf_fst _ _ _ hmax
        · simp only [Option.some.injEq] at h
          subst h
          simp [failureText] at ht

/-! ## Lengths in the worker -/

theorem fgetsChunk_length (k : Nat) (s : List Char) : (fgetsChunk k s).length ≤ k := by
  induction k generalizing s with
  | zero => simp [fgetsChunk]
  | succ k ih =>
    cases s with
    | nil => simp [fgetsChunk]
    | cons c cs =>
      simp only [fgetsChunk]
      split
      · simp
      · simp only [List.length_cons]
        have := ih cs
        omega

/-- A line delivered by `fgets` into a buffer of `n` bytes has at most `n - 1`
characters. -/
theorem fgets_length (n : Nat) (stream line rest : List Char)
    (h : fgets n stream = some (line, rest)) : line.length ≤ n - 1 := by
  unfold fgets at h
  cases stream with
  | nil => simp at h
  | cons c cs =>
    simp only [Option.some.injEq, Prod.mk.injEq] at h
    rw [← h.1]
    exact le_trans (List.takeWhile_sublist _).length_le (fgetsChunk_length _ _)

theorem strtok_length (s delim : CStr) :
    (strtok s delim).2.length ≤ s.length
    ∧ ∀ t, (strtok s delim).1 = some t →
        t.length + (strtok s delim).2.length ≤ s.length := by
  unfold strtok
  have h1 := (List.dropWhile_sublist (l := s) (fun c => delim.contains c)).length_le
  cases hd : s.dropWhile (fun c => delim.contains c) with
  | nil => simp
  | cons c cs =>
    rw [hd] at h1
    have h2 := List.takeWhile_append_dropWhile (fun x => !delim.contains x) (c :: cs)
    have h3 := congrArg List.length h2
    rw [List.length_append] at h3
    dsimp only
    constructor
    · rw [List.length_drop]
      omega
    · intro t ht
      simp only [Option.some.injEq] at ht
      rw [← ht, List.length_drop]
      omega

/-- The worker ids `main` hands out, `1` to `MAX_WORKERS`, print in at most three
characters. -/
theorem fmtD_length (id : Int) (h1 : 1 ≤ id) (h2 : id ≤ 100) : (fmtD id).length ≤ 3 := by
  have hall : ∀ n : Fin 101, (fmtD (n.val : Int)).length ≤ 3 := by decide
  have := hall ⟨id.toNat, by omega⟩
  have e : ((id.toNat : Nat) : Int) = id := Int.toNat_of_nonneg (by omega)
  simpa only [e] using this

theorem attemptText_length (worker_id : Int) (hostname : Option CStr) (port : CStr) :
    (attemptText worker_id hostname port).length
      = 38 + (fmtD worker_id).length + (fmtS hostname).length + port.length := by
  have a : "Worker ".toList.length = 7 := by decide
  have b : ": Attempting to connect to ".toList.length = 27 := by decide
  have c : ":".toList.length = 1 := by decide
  have d : "...".toList.length = 3 := by decide
  simp only [attemptText, List.length_append, a, b, c, d]
  omega

/-- The host token of a line of at most 255 characters prints in at most 255
characters (also when it is `NULL`). -/
theorem strtok_host_length (line : CStr) (h : line.length ≤ 255) :
    (fmtS (strtok line [':', '\n']).1).length ≤ 255 := by
  have h1 := strtok_length line [':', '\n']
  have hnull : "(null)".toList.length = 6 := by decide
  cases hh : (strtok line [':', '\n']).1 with
  | none =>
    simp only [fmtS, hnull]
    omega
  | some t =>
    have := h1.2 t hh
    simp only [fmtS]
    omega

/-- For a host and a port of at most 255 characters each (tokens of lines read by
`fgets`) and a worker id between 1 and 100 the attempt message fits `result_message`, so
`worker_thread` calls `download_certificate`, with that host. -/
theorem worker_thread_call_some (data : worker_data_t) (hostname port : Option CStr)
    (hh : (fmtS hostname).length ≤ 255) (hp : ∀ q, port = some q → q.length ≤ 255)
    (h1 : 1 ≤ data.worker_id) (h2 : data.worker_id ≤ 100) :
    ∃ c, worker_thread_call data hostname port = some c
      ∧ c.hostname = hostname ∧ c.worker_id = data.worker_id
      ∧ c.max_length = MAX_RESULT_LENGTH ∧ c.port.length ≤ 255 := by
  have hport : ∀ port1 : CStr, port1.length ≤ 255 →
      ∃ c, (if (snprintf [] MAX_RESULT_LENGTH (attemptText data.worker_id hostname port1)).2 < 0
              ∨ (snprintf [] MAX_RESULT_LENGTH (attemptText data.worker_id hostname port1)).2
                  ≥ (MAX_RESULT_LENGTH : Int) then none
            else some
              ({ hostname := hostname, port := port1, output_dir := data.output_dir,
                 result_message := (snprintf [] MAX_RESULT_LENGTH
                   (attemptText data.worker_id hostname port1)).1,
                 max_length := MAX_RESULT_LENGTH, timeout := data.timeout,
                 overwrite := data.overwrite, worker_id := data.worker_id } : Call)) = some c
        ∧ c.hostname = hostname ∧ c.worker_id = data.worker_id
        ∧ c.max_length = MAX_RESULT_LENGTH ∧ c.port.length ≤ 255 := by
    intro port1 hlen1
    have hlen := attemptText_length data.worker_id hostname port1
    have hd := fmtD_length data.worker_id h1 h2
    have hfit : (attemptText data.worker_id hostname port1).length < MAX_RESULT_LENGTH := by
      unfold MAX_RESULT_LENGTH
      omega
    have hs := snprintf_fits [] MAX_RESULT_LENGTH _ hfit (by decide)
    have hcast : ((attemptText data.worker_id hostname port1).length : Int)
        < (MAX_RESULT_LENGTH : Int) := by exact_mod_cast hfit
    rw [hs, if_neg (by omega)]
    exact ⟨_, rfl, rfl, rfl, rfl, hlen1⟩
  unfold worker_thread_call
  cases port with
  | none => exact hport DEFAULT_PORT (by decide)
  | some q => exact hport q (hp q rfl)

theorem workerTargetText_length (worker_id : Int) (what : String) (hostname : Option CStr)
    (port : CStr) :
    (workerTargetText worker_id what hostname port).length
      = 11 + (fmtD worker_id).length + what.toList.length + (fmtS hostname).length
        + port.length := by
  have a : "Worker ".toList.length = 7 := by decide
  have b : ": ".toList.length = 2 := by decide
  have c : " ".toList.length = 1 := by decide
  have d : ":".toList.length = 1 := by decide
  simp only [workerTargetText, List.length_append, a, b, c, d]
  omega

theorem workerText_length (worker_id : Int) (what : String) :
    (workerText worker_id what).length = 9 + (fmtD worker_id).length + what.toList.length := by
  have a : "Worker ".toList.length = 7 := by decide
  have b : ": ".toList.length = 2 := by decide
  simp only [workerText, List.length_append, a, b]
  omega

/-- Every failure text is short when the worker id prints in three characters. -/
theorem failureText_length (x : DlExit) (worker_id : Int) (hostname : Option CStr)
    (port : CStr) (t : CStr) (hd : (fmtD worker_id).length ≤ 3)
    (ht : failureText x worker_id hostname port = some t) :
    t.length ≤ 50 + (fmtS hostname).length + port.length := by
  have l1 : "Failed to create SSL context".toList.length = 28 := by decide
  have l2 : "Failed to create BIO".toList.length = 20 := by decide
  have l3 : "Failed to get SSL from BIO".toList.length = 26 := by decide
  have l4 : "Hostname and port too long".toList.length = 26 := by decide
  have l5 : "Failed to set connection hostname".toList.length = 33 := by decide
  have l6 : "Failed to set TLS extension hostname".toList.length = 36 := by decide
  have l7 : "DNS resolution failure for".toList.length = 26 := by decide
  have l8 : "Connection failed to".toList.length = 20 := by decide
  have l9 : "Connection timeout to".toList.length = 21 := by decide
  have l10 : "Failed to save certificate for".toList.length = 30 := by decide
  cases x <;> simp only [failureText, Option.some.injEq, reduceCtorEq] at ht <;> subst ht <;>
    simp only [workerTargetText_length, workerText_length, l1, l2, l3, l4, l5, l6, l7, l8, l9,
      l10] <;> omega

theorem workerTargetText_contains (worker_id : Int) (what : String)
    (hostname : Option CStr) (port : CStr) :
    fmtD worker_id <:+: workerTargetText worker_id what hostname port
    ∧ fmtS hostname <:+: workerTargetText worker_id what hostname port
    ∧ port <:+: workerTargetText worker_id what hostname port := by
  unfold workerTargetText
  refine ⟨⟨"Worker ".toList,
      ": ".toList ++ what.toList ++ " ".toList ++ fmtS hostname ++ ":".toList ++ port, ?_⟩,
    ⟨"Worker ".toList ++ fmtD worker_id ++ ": ".toList ++ what.toList ++ " ".toList,
      ":".toList ++ port, ?_⟩,
    ⟨"Worker ".toList ++ fmtD worker_id ++ ": ".toList ++ what.toList ++ " ".toList
      ++ fmtS hostname ++ ":".toList, [], ?_⟩⟩
  · simp only [List.append_assoc]
  · simp only [List.append_assoc]
  · simp only [List.append_assoc, List.append_nil]

theorem fgetsChunk_line (l rest : List Char) (k : Nat) (hk : l.length < k)
    (hnl : '\n' ∉ l) : fgetsChunk k (l ++ '\n' :: rest) = l ++ ['\n'] := by
  induction l generalizing k with
  | nil =>
    obtain ⟨j, rfl⟩ : ∃ j, k = j + 1 := ⟨k - 1, by simp at hk; omega⟩
    simp [fgetsChunk]
  | cons c cs ih =>
    obtain ⟨j, rfl⟩ : ∃ j, k = j + 1 := ⟨k - 1, by simp at hk; omega⟩
    have hc : c ≠ '\n' := fun e => hnl (by simp [e])
    have hcs : '\n' ∉ cs := fun h => hnl (by simp [h])
    rw [List.cons_append, fgetsChunk, if_neg hc, ih j (by simp at hk; omega) hcs]
    rfl

/-- On an input that starts with a newline-terminated line of at most 254 characters
without NUL, `fgets` delivers exactly that line, newline included, and leaves the rest. -/
theorem fgets_line (l rest : List Char) (hlen : l.length ≤ 254) (hnl : '\n' ∉ l)
    (hnul : Char.ofNat 0 ∉ l) :
    fgets MAX_LINE_LENGTH (l ++ '\n' :: rest) = some (l ++ ['\n'], rest) := by
  have hchunk : fgetsChunk (MAX_LINE_LENGTH - 1) (l ++ '\n' :: rest) = l ++ ['\n'] :=
    fgetsChunk_line l rest _ (by unfold MAX_LINE_LENGTH; omega) hnl
  have htake : (l ++ ['\n']).takeWhile (fun c => c != Char.ofNat 0) = l ++ ['\n'] := by
    have := takeWhile_append_stop (fun c => c != Char.ofNat 0) (l ++ ['\n']) []
      (fun x hx => by
        rcases List.mem_append.1 hx with h | h
        · have : x ≠ Char.ofNat 0 := fun e => hnul (e ▸ h)
          simpa using this
        · have : x = '\n' := by simpa using h
          rw [this]
          decide)
      (by simp)
    simpa using this
  have hdrop : (l ++ '\n' :: rest).drop (l ++ ['\n']).length = rest := by
    have e : l ++ '\n' :: rest = (l ++ ['\n']) ++ rest := by simp
    rw [e, List.drop_left]
  unfold fgets
  simp only [hchunk, htake, hdrop]
  cases l <;> rfl

theorem Target.text_newline (t : Target) (h : '\n' ∉ t.text) :
    '\n' ∉ t.host ∧ ∀ p, t.port = some p → '\n' ∉ p := by
  unfold Target.text at h
  cases hp : t.port with
  | none =>
    rw [hp] at h
    exact ⟨h, fun p hp' => by simp at hp'⟩
  | some p0 =>
    rw [hp] at h
    simp only [List.mem_append, List.mem_cons, not_or] at h
    refine ⟨h.1, fun p hp' => ?_⟩
    simp only [Option.some.injEq] at hp'
    rw [← hp']
    exact h.2.2

/-- Why the pool leaves the result of the second `strtok` call to the schedule.  Two
workers hold `a.example:1111` and `b.example:2222`; the static scan position is passed
from call to call in the order the calls are made: first call of A, first call of B,
second call of A, second call of B.  A's second call continues in B's line and returns
`2222`; B's second call finds nothing left, so B falls back to the default port. -/
theorem strtok_interleaved :
    (strtok "a.example:1111\n".toList [':', '\n']).1 = some "a.example".toList
    ∧ (strtok "b.example:2222\n".toList [':', '\n']).1 = some "b.example".toList
    ∧ (strtok (strtok "b.example:2222\n".toList [':', '\n']).2 ['\n']).1
        = some "2222".toList
    ∧ (strtok (strtok (strtok "b.example:2222\n".toList [':', '\n']).2 ['\n']).2 ['\n']).1
        = none := by
  refine ⟨by decide, by decide, by decide, by decide⟩

/-- The first token of the line of a well-formed target is its host. -/
theorem strtok_target (t : Target) (h : t.WellFormed) :
    (strtok (t.text ++ ['\n']) [':', '\n']).1 = some t.host := by
  obtain ⟨hne, hcolon, _, hnl, _, _⟩ := h
  obtain ⟨hnh, _⟩ := t.text_newline hnl
  have hh : ∀ x ∈ t.host, x ∉ [':', '\n'] := by
    intro x hx
    have h1 : x ≠ ':' := fun e => hcolon (e ▸ hx)
    have h2 : x ≠ '\n' := fun e => hnh (e ▸ hx)
    simp [h1, h2]
  unfold Target.text
  cases hp : t.port with
  | none =>
    dsimp only
    rw [strtok_token [':', '\n'] t.host ['\n'] hne hh (by simp)]
  | some p =>
    have e : t.host ++ ':' :: p ++ ['\n'] = t.host ++ (':' :: p ++ ['\n']) := by simp
    dsimp only
    rw [e, strtok_token [':', '\n'] t.host (':' :: p ++ ['\n']) hne hh (by simp)]

theorem getElem?_split {α : Type} (ws : List α) (w : Nat) (x : α) (h : ws[w]? = some x) :
    ∃ a b, ws = a ++ x :: b ∧ ∀ y, ws.set w y = a ++ y :: b := by
  induction ws generalizing w with
  | nil => simp at h
  | cons v vs ih =>
    cases w with
    | zero =>
      simp only [List.getElem?_cons_zero, Option.some.injEq] at h
      subst h
      exact ⟨[], vs, rfl, fun y => rfl⟩
    | succ n =>
      simp only [List.getElem?_cons_succ] at h
      obtain ⟨a, b, hab, hset⟩ := ih n h
      refine ⟨v :: a, b, by rw [hab]; rfl, fun y => ?_⟩
      rw [List.set_cons_succ, hset y]
      rfl

theorem heldLines_split (a b : List (worker_data_t × WorkerPc)) (data : worker_data_t)
    (pc : WorkerPc) :
    heldLines (a ++ (data, pc) :: b)
      = heldLines a ++ (match pc with
                        | WorkerPc.holding line => [line]
                        | _ => []) ++ heldLines b := by
  unfold heldLines
  rw [List.filterMap_append, List.filterMap_cons]
  cases pc <;> simp

theorem inputOf_cons (t : Target) (ts : List Target) :
    inputOf (t :: ts) = t.text ++ '\n' :: inputOf ts := by
  simp [inputOf]

theorem inputOf_eq_nil (ts : List Target) (h : inputOf ts = []) : ts = [] := by
  cases ts with
  | nil => rfl
  | cons t rest =>
    rw [inputOf_cons] at h
    simp at h

theorem mem_replaced {α : Type} (a b : List α) (x y v : α) (h : v ∈ a ++ y :: b) :
    v = y ∨ v ∈ a ++ x :: b := by
  simp only [List.mem_append, List.mem_cons] at h ⊢
  rcases h with h | h | h
  · exact Or.inr (Or.inl h)
  · exact Or.inl h
  · exact Or.inr (Or.inr (Or.inr h))

/-- Every step keeps the invariant of the pool, whatever token of at most 255
characters the second `strtok` call returns. -/
theorem Pool.step_inv (targets : List Target) (hwf : ∀ t ∈ targets, t.WellFormed)
    (p : Pool) (e : PoolStep) (hport : ∀ q, e.port = some q → q.length ≤ 255)
    (hinv : Pool.Inv targets p) : Pool.Inv targets (p.step e) := by
  obtain ⟨k, hk, hin, hids, hheld, hperm, hfin⟩ := hinv
  unfold Pool.step
  by_cases hx : p.exited = true
  · rw [if_pos hx]
    exact ⟨k, hk, hin, hids, hheld, hperm, hfin⟩
  rw [if_neg hx]
  cases hw : p.workers[e.worker]? with
  | none => exact ⟨k, hk, hin, hids, hheld, hperm, hfin⟩
  | some x =>
    obtain ⟨data, pc⟩ := x
    obtain ⟨a, b, hab, hset⟩ := getElem?_split p.workers e.worker (data, pc) hw
    have hdata : 1 ≤ data.worker_id ∧ data.worker_id ≤ 100 :=
      hids (data, pc) (by rw [hab]; simp)
    have hids2 : ∀ pc2, ∀ v ∈ a ++ (data, pc2) :: b,
        1 ≤ v.1.worker_id ∧ v.1.worker_id ≤ 100 := by
      intro pc2 v hv
      rcases mem_replaced a b (data, pc) (data, pc2) v hv with h | h
      · rw [h]; exact hdata
      · exact hids v (by rw [hab]; exact h)
    cases pc with
    | reading =>
      dsimp only
      have hold : heldLines p.workers = heldLines a ++ heldLines b := by
        rw [hab, heldLines_split]
        simp
      by_cases hkk : k < targets.length
      · have hdrop : targets.drop k = targets[k] :: targets.drop (k + 1) :=
          List.drop_eq_getElem_cons hkk
        obtain ⟨hne, hcolon, hport', hnl, hnul, hlen⟩ := hwf targets[k] (List.getElem_mem hkk)
        have hfg : fgets MAX_LINE_LENGTH p.input_file
            = some (targets[k].text ++ ['\n'], inputOf (targets.drop (k + 1))) := by
          rw [hin, hdrop, inputOf_cons]
          exact fgets_line _ _ hlen hnl hnul
        have hhost := strtok_target targets[k] ⟨hne, hcolon, hport', hnl, hnul, hlen⟩
        have hnew : heldLines (a ++ (data, WorkerPc.holding (targets[k].text ++ ['\n'])) :: b)
            = heldLines a ++ [targets[k].text ++ ['\n']] ++ heldLines b := by
          rw [heldLines_split]
        have htake : targets.take (k + 1) = targets.take k ++ [targets[k]] := by
          rw [List.take_succ, List.getElem?_eq_getElem hkk]
          rfl
        rw [hfg]
        dsimp only
        rw [hset]
        refine ⟨k + 1, hkk, rfl, hids2 _, ?_, ?_, ?_⟩
        · intro l hl
          rw [hnew] at hl
          simp only [List.mem_append, List.mem_singleton] at hl
          rcases hl with (hl | hl) | hl
          · exact hheld l (by rw [hold]; exact List.mem_append_left _ hl)
          · rw [hl, List.length_append]
            simp only [List.length_singleton]
            omega
          · exact hheld l (by rw [hold]; exact List.mem_append_right _ hl)
        · rw [hnew, htake]
          rw [hold] at hperm
          rw [← Multiset.coe_eq_coe] at hperm ⊢
          simp only [List.map_append, ← Multiset.coe_add, List.map_cons, List.map_nil,
            hhost, Target.handed] at hperm ⊢
          rw [← hperm]
          abel
        · rintro ⟨v, hv, hvfin⟩
          exfalso
          rcases mem_replaced a b (data, WorkerPc.reading) _ v hv with h | h
          · rw [h] at hvfin
            simp at hvfin
          · have := hfin ⟨v, by rw [hab]; exact h, hvfin⟩
            rw [hin, hdrop, inputOf_cons] at this
            simp at this
      · have hkeq : k = targets.length := by omega
        have hnil : p.input_file = [] := by
          rw [hin, hkeq, List.drop_length]
          rfl
        have hfg : fgets MAX_LINE_LENGTH p.input_file = none := by
          rw [hnil]
          rfl
        have hnew : heldLines (a ++ (data, WorkerPc.finished) :: b)
            = heldLines a ++ heldLines b := by
          rw [heldLines_split]
          simp
        rw [hfg]
        dsimp only
        rw [hset]
        refine ⟨k, hk, hin, hids2 _, ?_, ?_, fun _ => hnil⟩
        · rw [hnew, ← hold]
          exact hheld
        · rw [hnew, ← hold]
          exact hperm
    | holding line =>
      dsimp only
      have hold : heldLines p.workers = heldLines a ++ [line] ++ heldLines b := by
        rw [hab, heldLines_split]
      have hnew : ∀ pc2, pc2 = WorkerPc.reading ∨ pc2 = WorkerPc.calling →
          heldLines (a ++ (data, pc2) :: b) = heldLines a ++ heldLines b := by
        intro pc2 h2
        rw [heldLines_split]
        rcases h2 with h2 | h2 <;> subst h2 <;> simp
      have hl : line.length ≤ 255 := hheld line (by rw [hold]; simp)
      obtain ⟨c, hc, hhost, _⟩ := worker_thread_call_some data (strtok line [':', '\n']).1
        e.port (strtok_host_length line hl) hport hdata.1 hdata.2
      rw [hc]
      dsimp only
      have key : ∀ pc2 x, pc2 = WorkerPc.reading ∨ pc2 = WorkerPc.calling →
          Pool.Inv targets { p with workers := p.workers.set e.worker (data, pc2),
                                    calls := p.calls ++ [(line, c)], exited := x } := by
        intro pc2 x h2
        rw [hset]
        refine ⟨k, hk, hin, hids2 _, ?_, ?_, ?_⟩
        · intro l hl'
          rw [hnew pc2 h2] at hl'
          apply hheld l
          rw [hold]
          simp only [List.mem_append, List.mem_singleton] at hl' ⊢
          rcases hl' with h | h
          · exact Or.inl (Or.inl h)
          · exact Or.inr h
        · rw [hnew pc2 h2]
          rw [hold] at hperm
          rw [← Multiset.coe_eq_coe] at hperm ⊢
          simp only [List.map_append, ← Multiset.coe_add, List.map_cons, List.map_nil,
            hhost] at hperm ⊢
          rw [← hperm]
          abel
        · rintro ⟨v, hv, hvfin⟩
          rcases mem_replaced a b (data, WorkerPc.holding line) _ v hv with h | h
          · rw [h] at hvfin
            rcases h2 with h2 | h2 <;> subst h2 <;> simp at hvfin
          · exact hfin ⟨v, by rw [hab]; exact h, hvfin⟩
      by_cases hs : e.signal = true
      · rw [if_pos hs]
        exact key _ _ (Or.inr rfl)
      · rw [if_neg hs]
        cases c.run e.env e.rounds e.fs e.queue with
        | none => exact key _ _ (Or.inr rfl)
        | some r => exact key _ _ (Or.inl rfl)
    | calling => exact ⟨k, hk, hin, hids, hheld, hperm, hfin⟩
    | finished => exact ⟨k, hk, hin, hids, hheld, hperm, hfin⟩

/-- Every interleaving keeps the invariant. -/
theorem Pool.run_inv (targets : List Target) (hwf : ∀ t ∈ targets, t.WellFormed)
    (sched : List PoolStep) :
    (∀ e ∈ sched, ∀ q, e.port = some q → q.length ≤ 255) →
    ∀ p : Pool, Pool.Inv targets p → Pool.Inv targets (p.run sched) := by
  induction sched with
  | nil => intro _ p h; exact h
  | cons e rest ih =>
    intro hports p h
    exact ih (fun x hx => hports x (List.mem_cons_of_mem _ hx)) (p.step e)
      (Pool.step_inv targets hwf p e (hports e (List.mem_cons_self _ _)) h)

/-- The pool as `main` starts it satisfies the invariant. -/
theorem Pool.start_inv (targets : List Target) (W : Nat) (hW : W ≤ MAX_WORKERS)
    (output_dir : CStr) (timeout : Int) (overwrite : Bool) :
    Pool.Inv targets (Pool.start (inputOf targets) W output_dir timeout overwrite) := by
  have hheld : heldLines (Pool.start (inputOf targets) W output_dir timeout overwrite).workers
      = [] := by
    simp only [Pool.start, heldLines]
    rw [List.filterMap_eq_nil_iff]
    intro v hv
    simp only [List.mem_map, List.mem_range] at hv
    obtain ⟨i, _, rfl⟩ := hv
    rfl
  refine ⟨0, Nat.zero_le _, rfl, ?_, ?_, ?_, ?_⟩
  · intro v hv
    simp only [Pool.start, List.mem_map, List.mem_range] at hv
    obtain ⟨i, hi, rfl⟩ := hv
    unfold MAX_WORKERS at hW
    dsimp only
    omega
  · rw [hheld]
    intro l hl
    simp at hl
  · rw [hheld]
    simp [Pool.start]
  · rintro ⟨v, hv, hvfin⟩
    simp only [Pool.start, List.mem_map, List.mem_range] at hv
    obtain ⟨i, _, rfl⟩ := hv
    simp at hvfin

theorem Pool.step_workers_length (p : Pool) (e : PoolStep) :
    (p.step e).workers.length = p.workers.length := by
  unfold Pool.step
  split
  · rfl
  · split
    · rfl
    · split <;> simp
    · split
      · simp
      · split
        · simp
        · split <;> simp
    · rfl
    · rfl

theorem Pool.run_workers_length (sched : List PoolStep) :
    ∀ p : Pool, (p.run sched).workers.length = p.workers.length := by
  induction sched with
  | nil => intro p; rfl
  | cons e rest ih =>
    intro p
    exact (ih (p.step e)).trans (Pool.step_workers_length p e)

theorem Pool.step_exhausted (p : Pool) (e : PoolStep) (h : p.input_file = []) :
    (p.step e).input_file = [] := by
  unfold Pool.step
  split
  · exact h
  · split
    · exact h
    · rw [h]
      rfl
    · split
      · exact h
      · split
        · exact h
        · split <;> exact h
    · exact h
    · exact h

/-- Once the input is exhausted it stays exhausted, whatever the workers do. -/
theorem Pool.run_exhausted (sched : List PoolStep) :
    ∀ p : Pool, p.input_file = [] → (p.run sched).input_file = [] := by
  induction sched with
  | nil => intro p h; exact h
  | cons e rest ih =>
    intro p h
    exact ih (p.step e) (Pool.step_exhausted p e h)

theorem fgetsChunk_ne_nil (k : Nat) (c : Char) (cs : List Char) :
    (fgetsChunk (k + 1) (c :: cs)).length ≥ 1 := by
  simp only [fgetsChunk]
  split <;> simp

/-- A successful `fgets` into a buffer of at least two bytes consumes at least one
character of the stream. -/
theorem fgets_rest_length (n : Nat) (hn : 2 ≤ n) (stream line rest : List Char)
    (h : fgets n stream = some (line, rest)) : rest.length < stream.length := by
  unfold fgets at h
  cases stream with
  | nil => simp at h
  | cons c cs =>
    simp only [Option.some.injEq, Prod.mk.injEq] at h
    obtain ⟨k, hk⟩ : ∃ k, n - 1 = k + 1 := ⟨n - 2, by omega⟩
    have h1 := fgetsChunk_ne_nil k c cs
    rw [← h.2, hk, List.length_drop]
    simp only [List.length_cons]
    omega

theorem weight_sum_split (a b : List (worker_data_t × WorkerPc))
    (x : worker_data_t × WorkerPc) :
    ((a ++ x :: b).map (fun w => w.2.weight)).sum
      = (a.map (fun w => w.2.weight)).sum + x.2.weight
        + (b.map (fun w => w.2.weight)).sum := by
  simp only [List.map_append, List.map_cons, List.sum_append, List.sum_cons]
  omega

/-- As long as the process has not been ended, every step of a worker that has not
finished and is not inside a call makes the measure of the pool smaller. -/
theorem Pool.step_measure (p : Pool) (e : PoolStep) (data : worker_data_t)
    (pc : WorkerPc) (hx : p.exited = false) (hw : p.workers[e.worker]? = some (data, pc))
    (hpc : pc ≠ WorkerPc.finished) (hpc2 : pc ≠ WorkerPc.calling) :
    (p.step e).measure < p.measure := by
  obtain ⟨a, b, hab, hset⟩ := getElem?_split p.workers e.worker (data, pc) hw
  have hm : p.measure = 2 * p.input_file.length + ((a.map (fun w => w.2.weight)).sum
      + pc.weight + (b.map (fun w => w.2.weight)).sum) := by
    unfold Pool.measure
    rw [hab, weight_sum_split]
  unfold Pool.step
  rw [if_neg (by rw [hx]; decide), hw]
  cases pc with
  | reading =>
    dsimp only
    cases hfg : fgets MAX_LINE_LENGTH p.input_file with
    | none =>
      dsimp only
      rw [hm]
      unfold Pool.measure
      dsimp only
      rw [hset, weight_sum_split]
      simp only [WorkerPc.weight]
      omega
    | some r =>
      obtain ⟨line, rest⟩ := r
      have hlen := fgets_rest_length MAX_LINE_LENGTH (by decide) p.input_file line rest hfg
      dsimp only
      rw [hm]
      unfold Pool.measure
      dsimp only
      rw [hset, weight_sum_split]
      simp only [WorkerPc.weight]
      omega
  | holding line =>
    dsimp only
    cases worker_thread_call data (strtok line [':', '\n']).1 e.port with
    | none =>
      dsimp only
      rw [hm]
      unfold Pool.measure
      dsimp only
      rw [hset, weight_sum_split]
      simp only [WorkerPc.weight]
      omega
    | some c =>
      dsimp only
      have key : ∀ pc2 x, pc2 = WorkerPc.reading ∨ pc2 = WorkerPc.calling →
          Pool.measure { p with workers := p.workers.set e.worker (data, pc2),
                                calls := p.calls ++ [(line, c)], exited := x }
            < p.measure := by
        intro pc2 x h2
        rw [hm]
        unfold Pool.measure
        dsimp only
        rw [hset, weight_sum_split]
        rcases h2 with h2 | h2 <;> subst h2 <;> simp only [WorkerPc.weight] <;> omega
      by_cases hs : e.signal = true
      · rw [if_pos hs]
        exact key _ _ (Or.inr rfl)
      · rw [if_neg hs]
        cases c.run e.env e.rounds e.fs e.queue with
        | none => exact key _ _ (Or.inr rfl)
        | some r => exact key _ _ (Or.inl rfl)
  | calling => exact absurd rfl hpc2
  | finished => exact absurd rfl hpc

/-- A step in which every call returns leaves the process running and no worker inside
a call when that was so before. -/
theorem Pool.step_noneCalling (p : Pool) (e : PoolStep) (hret : e.returns)
    (h : p.noneCalling) : (p.step e).noneCalling := by
  obtain ⟨hx, hnc⟩ := h
  obtain ⟨hsig, hsome⟩ := hret
  unfold Pool.step
  rw [if_neg (by rw [hx]; decide)]
  cases hw : p.workers[e.worker]? with
  | none => exact ⟨hx, hnc⟩
  | some x =>
    obtain ⟨data, pc⟩ := x
    obtain ⟨a, b, hab, hset⟩ := getElem?_split p.workers e.worker (data, pc) hw
    have hrep : ∀ pc2, pc2 ≠ WorkerPc.calling →
        ∀ v ∈ a ++ (data, pc2) :: b, v.2 ≠ WorkerPc.calling := by
      intro pc2 h2 v hv
      rcases mem_replaced a b (data, pc) (data, pc2) v hv with hv' | hv'
      · rw [hv']
        exact h2
      · exact hnc v (by rw [hab]; exact hv')
    cases pc with
    | reading =>
      dsimp only
      cases fgets MAX_LINE_LENGTH p.input_file with
      | none =>
        refine ⟨hx, ?_⟩
        dsimp only
        rw [hset]
        exact hrep _ (by simp)
      | some r =>
        refine ⟨hx, ?_⟩
        dsimp only
        rw [hset]
        exact hrep _ (by simp)
    | holding line =>
      dsimp only
      cases worker_thread_call data (strtok line [':', '\n']).1 e.port with
      | none =>
        refine ⟨hx, ?_⟩
        dsimp only
        rw [hset]
        exact hrep _ (by simp)
      | some c =>
        dsimp only
        rw [if_neg (by rw [hsig]; decide)]
        have hc := hsome c
        cases hr : c.run e.env e.rounds e.fs e.queue with
        | none =>
          rw [hr] at hc
          exact absurd hc (by simp)
        | some r =>
          refine ⟨hx, ?_⟩
          dsimp only
          rw [hset]
          exact hrep _ (by simp)
    | calling => exact ⟨hx, hnc⟩
    | finished => exact ⟨hx, hnc⟩

/-- A call of `download_certificate` whose first connect step succeeds returns. -/
theorem download_certificate_returns (env : TlsEnv) (fuel : Nat)
    (h : 0 < (env.connect 0).ret) (fs : FileSys) (queue : List ℕ+)
    (hostname : Option CStr) (port : CStr) (output_dir : CStr) (result_message : CStr)
    (max_length : Nat) (timeout : Int) (overwrite : Bool) (worker_id : Int) :
    (download_certificate env (fuel + 1) fs queue hostname port output_dir result_message
      max_length timeout overwrite worker_id).isSome = true := by
  unfold download_certificate
  have hnot : ¬ (env.connect 0).ret ≤ 0 := by omega
  split
  · rfl
  · split
    · rfl
    · split
      · rfl
      · dsimp only
        split
        · rfl
        · split
          · rfl
          · split
            · rfl
            · rw [download_certificate_loop]
              simp only [hnot, if_false]
              cases env.SSL_get_peer_certificate with
              | none => rfl
              | some cert =>
                dsimp only
                split <;> rfl

theorem quickStep_returns (w : Nat) (port : Option CStr) : (quickStep w port).returns := by
  refine ⟨rfl, fun c => ?_⟩
  have h : 0 < ((quickStep w port).env.connect 0).ret := by
    show (0 : Int) < 1
    decide
  exact download_certificate_returns _ 0 h _ _ _ _ _ _ _ _ _ _

/-- Every state of the pool in which the process is running and no worker is inside a
call can be continued, by steps in which every call returns, until all workers have
finished. -/
theorem Pool.completes (n : Nat) :
    ∀ p : Pool, p.measure = n → p.noneCalling →
      ∃ ext, (∀ e ∈ ext, ∀ q, e.port = some q → q.length ≤ 255)
        ∧ (∀ e ∈ ext, e.returns) ∧ (p.run ext).done := by
  induction n using Nat.strong_induction_on with
  | _ n ih =>
    intro p hp hnc
    by_cases hdone : p.done
    · exact ⟨[], by simp, by simp, hdone⟩
    · unfold Pool.done at hdone
      push_neg at hdone
      obtain ⟨v, hv, hvne⟩ := hdone
      obtain ⟨w, hw⟩ := List.mem_iff_getElem?.1 hv
      have hlt := Pool.step_measure p (quickStep w none) v.1 v.2 hnc.1 hw hvne (hnc.2 v hv)
      obtain ⟨ext, hports, hrets, hext⟩ :=
        ih (p.step (quickStep w none)).measure (by omega) (p.step (quickStep w none)) rfl
          (Pool.step_noneCalling p _ (quickStep_returns w none) hnc)
      refine ⟨quickStep w none :: ext, ?_, ?_, hext⟩
      · intro e he q hq
        rcases List.mem_cons.1 he with h | h
        · rw [h] at hq
          simp [quickStep] at hq
        · exact hports e h q hq
      · intro e he
        rcases List.mem_cons.1 he with h | h
        · rw [h]
          exact quickStep_returns w none
        · exact hrets e h

theorem heldLines_done (ws : List (worker_data_t × WorkerPc))
    (h : ∀ w ∈ ws, w.2 = WorkerPc.finished) : heldLines ws = [] := by
  unfold heldLines
  rw [List.filterMap_eq_nil_iff]
  intro v hv
  rw [h v hv]

theorem Pool.run_noneCalling (sched : List PoolStep) :
    (∀ e ∈ sched, e.returns) → ∀ p : Pool, p.noneCalling → (p.run sched).noneCalling := by
  induction sched with
  | nil => intro _ p h; exact h
  | cons e rest ih =>
    intro hret p h
    exact ih (fun x hx => hret x (List.mem_cons_of_mem _ hx)) (p.step e)
      (Pool.step_noneCalling p e (hret e (List.mem_cons_self _ _)) h)

theorem Pool.start_noneCalling (input : List Char) (W : Nat) (output_dir : CStr)
    (timeout : Int) (overwrite : Bool) :
    (Pool.start input W output_dir timeout overwrite).noneCalling := by
  refine ⟨rfl, fun v hv => ?_⟩
  simp only [Pool.start, List.mem_map, List.mem_range] at hv
  obtain ⟨i, _, rfl⟩ := hv
  simp

/-- The call for the line `example.com` made by worker 1 never returns when the peer
stays silent: it is still in its connect loop after any number of rounds. -/
theorem Call.run_silent (rounds : Nat) :
    Call.run
      { hostname := some "example.com".toList, port := "443".toList,
        output_dir := "out".toList,
        result_message := "Worker 1: Attempting to connect to example.com:443...".toList,
        max_length := 2048, timeout := 3, overwrite := false, worker_id := 1 }
      silentPeerEnv rounds emptyFs [] = none := by
  have hl := download_certificate_loop_running silentPeerEnv (some "example.com".toList)
    "443".toList 2048 3 1
    "Worker 1: Attempting to connect to example.com:443...".toList rounds 0 [] []
    (fun j _ => by
      show retryRound wantReadStep 3
      decide)
  unfold Call.run download_certificate
  rw [if_neg (by decide), if_neg (by decide), if_neg (by decide)]
  dsimp only
  rw [if_neg (by decide), if_neg (by decide), if_neg (by decide), hl]

/-- A pool whose only worker is inside a call stays as it is. -/
theorem Pool.run_stuck (input : List Char) (data : worker_data_t)
    (calls : List (CStr × Call)) (x : Bool) (sched : List PoolStep) :
    Pool.run ⟨input, [(data, WorkerPc.calling)], calls, x⟩ sched
      = ⟨input, [(data, WorkerPc.calling)], calls, x⟩ := by
  induction sched with
  | nil => rfl
  | cons e rest ih =>
    have hstep : Pool.step ⟨input, [(data, WorkerPc.calling)], calls, x⟩ e
        = ⟨input, [(data, WorkerPc.calling)], calls, x⟩ := by
      unfold Pool.step
      cases x with
      | true => rfl
      | false =>
        cases hw : e.worker with
        | zero => simp
        | succ n => simp
    show Pool.run (Pool.step _ e) rest = _
    rw [hstep]
    exact ih

/-- Whatever the rounds of the connect step signal, every `select` call the loop adds is
on the write set, with the full `timeout`. -/
theorem download_certificate_loop_waits_write (env : TlsEnv) (hostname : Option CStr)
    (port : CStr) (max_length : Nat) (timeout : Int) (worker_id : Int) (msg : CStr) :
    ∀ (fuel i : Nat) (q : List ℕ+) (ws : List WaitCall) (l : LoopEnd),
      download_certificate_loop env hostname port max_length timeout worker_id fuel i msg q ws
          = some l →
      ∃ extra, l.waits = ws ++ extra ∧ ∀ w ∈ extra, w = ⟨false, timeout⟩ := by
  intro fuel
  induction fuel with
  | zero =>
    intro i q ws l h
    simp [download_certificate_loop] at h
  | succ f ih =>
    intro i q ws l h
    rw [download_certificate_loop] at h
    dsimp only at h
    split at h
    · split at h
      · split at h
        · cases h
          exact ⟨[], (List.append_nil ws).symm, by simp⟩
        · cases h
          exact ⟨[], (List.append_nil ws).symm, by simp⟩
      · split at h
        · cases h
          exact ⟨_, rfl, wait_for_bio_call _ _⟩
        · obtain ⟨extra, hw, hall⟩ := ih _ _ _ _ h
          refine ⟨(wait_for_bio (env.connect i) timeout 0).2.toList ++ extra, ?_, ?_⟩
          · rw [hw, List.append_assoc]
          · intro w hmem
            rcases List.mem_append.1 hmem with hm | hm
            · exact wait_for_bio_call _ _ w hm
            · exact hall w hm
    · cases h
      exact ⟨[], (List.append_nil ws).symm, by simp⟩

/-- Claim C11 (evaluation at the failing input). The connect step of the first round
would block on a read: `BIO_should_retry` and `BIO_should_read` hold, `BIO_should_write`
does not.  The loop calls `wait_for_bio(bio, timeout, 0)`: the one `select` call made is
on the write set, which does not follow the indication of the library, although
`wait_for_bio` called with a non-zero `for_read` would have put the descriptor in the read
set.  With a peer that stays silent every such wait returns at once (the descriptor is
writable), so the loop goes round for ever, where the wait on the read set would have
ended the attempt after `timeout` seconds.  And in every environment, whatever
`BIO_should_read` and `BIO_should_write` say, no `select` call of the loop is on the read
set. -/
theorem download_certificate_loop_ignores_should_read :
    (wantReadStep.should_retry = true ∧ wantReadStep.should_read = true
      ∧ wantReadStep.should_write = false)
    ∧ (download_certificate_loop (sampleTlsEnv wantReadOnce none) (some sampleHost)
        "8443".toList 2048 3 7 2 0 sampleMessage [] []).map LoopEnd.waits
      = some [⟨false, 3⟩]
    ∧ ¬ followsIndication wantReadStep ⟨false, 3⟩
    ∧ followsIndication wantReadStep ⟨true, 3⟩
    ∧ wait_for_bio wantReadStep 3 1 = (0, some ⟨true, 3⟩)
    ∧ wait_for_bio wantReadStep 3 0 = (1, some ⟨false, 3⟩)
    ∧ (∀ fuel : Nat,
        download_certificate_loop (sampleTlsEnv (fun _ => wantReadStep) none)
          (some sampleHost) "8443".toList 2048 3 7 fuel 0 sampleMessage [] [] = none)
    ∧ (∀ (env : TlsEnv) (hostname : Option CStr) (port : CStr) (max_length : Nat)
        (timeout : Int) (worker_id : Int) (fuel : Nat) (msg : CStr),
        (download_certificate_loop env hostname port max_length timeout worker_id fuel 0
          msg [] []).all (fun l => l.waits.all (fun w => !w.for_read)) = true) := by
  refine ⟨by decide, by decide, by decide, by decide, by decide, by decide, ?_, ?_⟩
  · intro fuel
    apply download_certificate_loop_running
    intro j _
    show retryRound wantReadStep 3
    decide
  · intro env hostname port max_length timeout worker_id fuel msg
    cases h : download_certificate_loop env hostname port max_length timeout worker_id fuel 0
        msg [] [] with
    | none => rfl
    | some l =>
      obtain ⟨extra, hw, hall⟩ :=
        download_certificate_loop_waits_write env hostname port max_length timeout worker_id
          msg fuel 0 [] [] l h
      simp only [Option.all, List.all_eq_true, Bool.not_eq_true']
      intro w hmem
      rw [hw, List.nil_append] at hmem
      rw [hall w hmem]

/-! ## Two workers storing the same certificate -/

/-- The three atomic steps of one worker, taken with no step of another thread in
between, are lines 63-89 of `save_certificate`. -/
theorem save_certificate_step_thrice (env : SaveEnv) (fs : FileSys) (data : Bytes)
    (file_path : CStr) (overwrite : Bool) :
    save_certificate_step env data file_path overwrite
        (save_certificate_step env data file_path overwrite
          (save_certificate_step env data file_path overwrite fs StorePc.opening).1
          (save_certificate_step env data file_path overwrite fs StorePc.opening).2).1
        (save_certificate_step env data file_path overwrite
          (save_certificate_step env data file_path overwrite fs StorePc.opening).1
          (save_certificate_step env data file_path overwrite fs StorePc.opening).2).2
      = ((save_certificate_store env fs data file_path overwrite).fs,
         StorePc.returned (save_certificate_store env fs data file_path overwrite).result
           (save_certificate_store env fs data file_path overwrite).diag) := by
  unfold save_certificate_store
  simp only [save_certificate_step]
  cases fopen fs file_path (if overwrite then Mode.w else Mode.wx) with
  | error e =>
    dsimp only
    by_cases h : e = Errno.EEXIST ∧ overwrite = false
    · simp only [h, and_self, if_true, save_certificate_step]
    · simp only [h, if_false, save_certificate_step]
  | ok fs1 =>
    dsimp only [save_certificate_step]
    by_cases h : (fwrite data (env.fwrite_count data)).2 = data.length
    · simp only [h, ne_eq, not_true_eq_false, if_false, save_certificate_step]
    · simp only [h, ne_eq, not_false_eq_true, if_true, save_certificate_step]

/-- The certificate enters `save_certificate` only through its PEM text, and the worker
id not at all. -/
theorem save_certificate_congr (env : SaveEnv) (fs : FileSys) (certA certB : X509)
    (output_dir : CStr) (overwrite : Bool) (idA idB : Int)
    (h : env.PEM_write_bio_X509 certA = env.PEM_write_bio_X509 certB) :
    save_certificate env fs certA output_dir overwrite idA
      = save_certificate env fs certB output_dir overwrite idB := by
  unfold save_certificate
  rw [h]

theorem FileSys.withFile_self (fs0 : FileSys) (path : CStr) :
    fs0.withFile path (fs0.files path) = fs0 := by
  cases fs0
  simp [FileSys.withFile]

theorem FileSys.withFile_files (fs0 : FileSys) (path : CStr) (x : Option Bytes) :
    (fs0.withFile path x).files path = x := by
  simp [FileSys.withFile]

theorem FileSys.withFile_other (fs0 : FileSys) (path q : CStr) (x : Option Bytes)
    (h : q ≠ path) : (fs0.withFile path x).files q = fs0.files q := by
  simp [FileSys.withFile, Function.update_noteq h]

/-- The `fopen` step on a path that does not exist and is not denied creates the empty
file. -/
theorem save_certificate_step_create (env : SaveEnv) (data : Bytes) (path : CStr)
    (fs0 : FileSys) (x : Option Bytes) (hx : x = none) (hden : fs0.denied path = false) :
    save_certificate_step env data path false (fs0.withFile path x) StorePc.opening
      = (fs0.withFile path (some []), StorePc.writing) := by
  subst hx
  simp [save_certificate_step, fopen, FileSys.withFile, hden]

/-- The `fopen` step on a path that exists returns `0` and leaves the file system. -/
theorem save_certificate_step_exists (env : SaveEnv) (data : Bytes) (path : CStr)
    (fs : FileSys) (hx : (fs.files path).isSome = true) :
    save_certificate_step env data path false fs StorePc.opening
      = (fs, StorePc.returned 0 (SaveDiag.alreadyExists path)) := by
  simp [save_certificate_step, fopen, hx]

/-- The `fwrite` step, when the stream takes all bytes, leaves the file system as it is
and the worker at `cleanup` with `data` in the stream and the result `0`. -/
theorem save_certificate_step_write (env : SaveEnv) (data : Bytes) (path : CStr)
    (fs : FileSys) (hwr : data.length ≤ env.fwrite_count data) :
    save_certificate_step env data path false fs StorePc.writing
      = (fs, StorePc.closing data 0 (SaveDiag.saved path)) := by
  have htake : data.take (env.fwrite_count data) = data := List.take_of_length_le hwr
  simp [save_certificate_step, fwrite, htake, Nat.min_eq_right hwr]

/-- The `fclose` step on the file still empty, when the flush brings all bytes to the
file, leaves `data` in the file and returns `0`. -/
theorem save_certificate_step_close (env : SaveEnv) (data : Bytes) (path : CStr)
    (fs0 : FileSys) (hfl : data.length ≤ env.fclose_flushed data) :
    save_certificate_step env data path false (fs0.withFile path (some []))
        (StorePc.closing data 0 (SaveDiag.saved path))
      = (fs0.withFile path (some data), StorePc.returned 0 (SaveDiag.saved path)) := by
  have htake : data.take (env.fclose_flushed data) = data := List.take_of_length_le hfl
  simp [save_certificate_step, fclose, FileSys.withFile, htake]

/-- A step of a worker that did not create the file, once the file exists. -/
theorem save_certificate_step_contender (env : SaveEnv) (data : Bytes) (path : CStr)
    (fs : FileSys) (pc : StorePc) (hx : (fs.files path).isSome = true)
    (hpc : pc.contender path) :
    (save_certificate_step env data path false fs pc).1 = fs
    ∧ (save_certificate_step env data path false fs pc).2.contender path
    ∧ (save_certificate_step env data path false fs pc).2.isReturned = true := by
  rcases hpc with h | h
  · subst h
    rw [save_certificate_step_exists env data path fs hx]
    exact ⟨rfl, Or.inr rfl, rfl⟩
  · subst h
    exact ⟨rfl, Or.inr rfl, rfl⟩

theorem StoreRace.step_first (env : SaveEnv) (data : Bytes) (path : CStr) (fs : FileSys)
    (a b : StorePc) :
    StoreRace.step env data path ⟨fs, a, b⟩ false
      = ⟨(save_certificate_step env data path false fs a).1,
         (save_certificate_step env data path false fs a).2, b⟩ := rfl

theorem StoreRace.step_second (env : SaveEnv) (data : Bytes) (path : CStr) (fs : FileSys)
    (a b : StorePc) :
    StoreRace.step env data path ⟨fs, a, b⟩ true
      = ⟨(save_certificate_step env data path false fs b).1, a,
         (save_certificate_step env data path false fs b).2⟩ := rfl

/-- Every step of either worker keeps the race among the states of `StoreRace.Inv`, as
long as the path is not denied, `fwrite` takes all bytes and `fclose` brings all of them
to the file. -/
theorem StoreRace.race_step_inv (env : SaveEnv) (data : Bytes) (path : CStr) (fs0 : FileSys)
    (s : StoreRace) (w : Bool) (hden : fs0.denied path = false)
    (hwr : data.length ≤ env.fwrite_count data)
    (hfl : data.length ≤ env.fclose_flushed data) (h : s.Inv data path fs0) :
    (s.step env data path w).Inv data path fs0 := by
  obtain ⟨fs, a, b⟩ := s
  unfold StoreRace.Inv at h
  dsimp only at h
  rcases h with ⟨h0, rfl, rfl, rfl⟩ | ⟨hs, rfl, ha, hb⟩ | ⟨h0, rfl, hab⟩ | ⟨h0, rfl, hab⟩
  · -- nothing done yet: the stepping worker creates the file
    have e := save_certificate_step_create env data path fs (fs.files path) h0 hden
    rw [FileSys.withFile_self] at e
    cases w
    · rw [StoreRace.step_first, e]
      exact Or.inr (Or.inr (Or.inl ⟨h0, rfl, Or.inl ⟨Or.inl rfl, Or.inl rfl⟩⟩))
    · rw [StoreRace.step_second, e]
      exact Or.inr (Or.inr (Or.inl ⟨h0, rfl, Or.inr ⟨Or.inl rfl, Or.inl rfl⟩⟩))
  · -- the file was there from the start
    cases w
    · obtain ⟨e1, e2, _⟩ := save_certificate_step_contender env data path fs a hs ha
      rw [StoreRace.step_first]
      exact Or.inr (Or.inl ⟨hs, e1, e2, hb⟩)
    · obtain ⟨e1, e2, _⟩ := save_certificate_step_contender env data path fs b hs hb
      rw [StoreRace.step_second]
      exact Or.inr (Or.inl ⟨hs, e1, ha, e2⟩)
  · -- one worker holds the stream of the empty file it created
    have hsome : ((fs0.withFile path (some [])).files path).isSome = true := by
      rw [FileSys.withFile_files]
      rfl
    rcases hab with ⟨ha, hb⟩ | ⟨hb, ha⟩
    · cases w
      · rw [StoreRace.step_first]
        rcases ha with rfl | rfl
        · rw [save_certificate_step_write env data path _ hwr]
          exact Or.inr (Or.inr (Or.inl ⟨h0, rfl, Or.inl ⟨Or.inr rfl, hb⟩⟩))
        · rw [save_certificate_step_close env data path fs0 hfl]
          exact Or.inr (Or.inr (Or.inr ⟨h0, rfl, Or.inl ⟨rfl, hb⟩⟩))
      · obtain ⟨e1, e2, _⟩ := save_certificate_step_contender env data path _ b hsome hb
        rw [StoreRace.step_second]
        exact Or.inr (Or.inr (Or.inl ⟨h0, e1, Or.inl ⟨ha, e2⟩⟩))
    · cases w
      · obtain ⟨e1, e2, _⟩ := save_certificate_step_contender env data path _ a hsome ha
        rw [StoreRace.step_first]
        exact Or.inr (Or.inr (Or.inl ⟨h0, e1, Or.inr ⟨hb, e2⟩⟩))
      · rw [StoreRace.step_second]
        rcases hb with rfl | rfl
        · rw [save_certificate_step_write env data path _ hwr]
          exact Or.inr (Or.inr (Or.inl ⟨h0, rfl, Or.inr ⟨Or.inr rfl, ha⟩⟩))
        · rw [save_certificate_step_close env data path fs0 hfl]
          exact Or.inr (Or.inr (Or.inr ⟨h0, rfl, Or.inr ⟨rfl, ha⟩⟩))
  · -- one worker wrote the file and returned
    have hsome : ((fs0.withFile path (some data)).files path).isSome = true := by
      rw [FileSys.withFile_files]
      rfl
    rcases hab with ⟨rfl, hb⟩ | ⟨rfl, ha⟩
    · cases w
      · rw [StoreRace.step_first]
        exact Or.inr (Or.inr (Or.inr ⟨h0, rfl, Or.inl ⟨rfl, hb⟩⟩))
      · obtain ⟨e1, e2, _⟩ := save_certificate_step_contender env data path _ b hsome hb
        rw [StoreRace.step_second]
        exact Or.inr (Or.inr (Or.inr ⟨h0, e1, Or.inl ⟨rfl, e2⟩⟩))
    · cases w
      · obtain ⟨e1, e2, _⟩ := save_certificate_step_contender env data path _ a hsome ha
        rw [StoreRace.step_first]
        exact Or.inr (Or.inr (Or.inr ⟨h0, e1, Or.inr ⟨rfl, e2⟩⟩))
      · rw [StoreRace.step_second]
        exact Or.inr (Or.inr (Or.inr ⟨h0, rfl, Or.inr ⟨rfl, ha⟩⟩))

theorem StoreRace.race_run_inv (env : SaveEnv) (data : Bytes) (path : CStr) (fs0 : FileSys)
    (hden : fs0.denied path = false) (hwr : data.length ≤ env.fwrite_count data)
    (hfl : data.length ≤ env.fclose_flushed data) (sched : List Bool) :
    ∀ s : StoreRace, s.Inv data path fs0 → (s.run env data path sched).Inv data path fs0 := by
  induction sched with
  | nil => intro s h; exact h
  | cons w rest ih =>
    intro s h
    exact ih _ (StoreRace.race_step_inv env data path fs0 s w hden hwr hfl h)

theorem StoreRace.race_start_inv (data : Bytes) (path : CStr) (fs0 : FileSys) :
    (StoreRace.start fs0).Inv data path fs0 := by
  cases h : fs0.files path with
  | none => exact Or.inl ⟨h, rfl, rfl, rfl⟩
  | some x =>
    refine Or.inr (Or.inl ⟨?_, rfl, Or.inl rfl, Or.inl rfl⟩)
    rw [h]
    rfl

theorem StorePc.contender_returned (path : CStr) (pc : StorePc) (h : pc.contender path)
    (hr : pc.isReturned = true) : pc = StorePc.returned 0 (SaveDiag.alreadyExists path) := by
  rcases h with h | h
  · subst h
    exact absurd hr (by decide)
  · exact h

theorem StorePc.creator_not_returned (data : Bytes) (path : CStr) (pc : StorePc)
    (h : pc.creator data path) : ¬ pc.isReturned = true := by
  rcases h with h | h <;> subst h <;> simp [StorePc.isReturned]

/-- What `StoreRace.Inv` says once both workers have returned. -/
theorem StoreRace.inv_done (data : Bytes) (path : CStr) (fs0 : FileSys) (s : StoreRace)
    (h : s.Inv data path fs0) (hd : s.done) :
    (s.first.result = some 0 ∧ s.second.result = some 0)
    ∧ (∀ q, q ≠ path → s.fs.files q = fs0.files q)
    ∧ (fs0.files path = none →
        s.fs.files path = some data
        ∧ ((s.first = StorePc.returned 0 (SaveDiag.saved path)
            ∧ s.second = StorePc.returned 0 (SaveDiag.alreadyExists path))
          ∨ (s.second = StorePc.returned 0 (SaveDiag.saved path)
            ∧ s.first = StorePc.returned 0 (SaveDiag.alreadyExists path))))
    ∧ ((fs0.files path).isSome = true →
        s.fs = fs0
        ∧ s.first = StorePc.returned 0 (SaveDiag.alreadyExists path)
        ∧ s.second = StorePc.returned 0 (SaveDiag.alreadyExists path)) := by
  obtain ⟨fs, a, b⟩ := s
  obtain ⟨hda, hdb⟩ := hd
  dsimp only at hda hdb
  unfold StoreRace.Inv at h
  dsimp only at h ⊢
  rcases h with ⟨_, _, rfl, _⟩ | ⟨hs, rfl, ha, hb⟩ | ⟨_, _, hab⟩ | ⟨h0, rfl, hab⟩
  · exact absurd hda (by decide)
  · have ea := StorePc.contender_returned path a ha hda
    have eb := StorePc.contender_returned path b hb hdb
    subst ea
    subst eb
    refine ⟨⟨rfl, rfl⟩, fun _ _ => rfl, ?_, fun _ => ⟨rfl, rfl, rfl⟩⟩
    intro hn
    rw [hn] at hs
    exact absurd hs (by decide)
  · rcases hab with ⟨ha, _⟩ | ⟨hb, _⟩
    · exact absurd hda (StorePc.creator_not_returned data path a ha)
    · exact absurd hdb (StorePc.creator_not_returned data path b hb)
  · have hno : ¬ (fs0.files path).isSome = true := by
      rw [h0]
      decide
    rcases hab with ⟨rfl, hb⟩ | ⟨rfl, ha⟩
    · have eb := StorePc.contender_returned path b hb hdb
      subst eb
      exact ⟨⟨rfl, rfl⟩, fun q hq => FileSys.withFile_other fs0 path q _ hq,
        fun _ => ⟨FileSys.withFile_files fs0 path _, Or.inl ⟨rfl, rfl⟩⟩,
        fun hs => absurd hs hno⟩
    · have ea := StorePc.contender_returned path a ha hda
      subst ea
      exact ⟨⟨rfl, rfl⟩, fun q hq => FileSys.withFile_other fs0 path q _ hq,
        fun _ => ⟨FileSys.withFile_files fs0 path _, Or.inr ⟨rfl, rfl⟩⟩,
        fun hs => absurd hs hno⟩

theorem save_certificate_step_returned (env : SaveEnv) (data : Bytes) (path : CStr)
    (overwrite : Bool) (fs : FileSys) (pc : StorePc) (h : pc.isReturned = true) :
    save_certificate_step env data path overwrite fs pc = (fs, pc) := by
  cases pc with
  | opening => exact absurd h (by decide)
  | writing => exact absurd h (by decide)
  | closing buffered r dg => exact absurd h (by simp [StorePc.isReturned])
  | returned r dg => rfl

/-- The `fclose` step returns from `save_certificate`. -/
theorem save_certificate_step_closing (env : SaveEnv) (data : Bytes) (path : CStr)
    (overwrite : Bool) (fs : FileSys) (buffered : Bytes) (r : Int) (dg : SaveDiag) :
    (save_certificate_step env data path overwrite fs
      (StorePc.closing buffered r dg)).2.isReturned = true := rfl

/-- The `fwrite` step and the `fclose` step return from `save_certificate`. -/
theorem save_certificate_step_writing (env : SaveEnv) (data : Bytes) (path : CStr)
    (overwrite : Bool) (fs : FileSys) :
    (save_certificate_step env data path overwrite
      (save_certificate_step env data path overwrite fs StorePc.writing).1
      (save_certificate_step env data path overwrite fs StorePc.writing).2).2.isReturned
      = true := by
  simp only [save_certificate_step]
  by_cases h : (fwrite data (env.fwrite_count data)).2 = data.length
  · simp only [h, ne_eq, not_true_eq_false, if_false, save_certificate_step,
      StorePc.isReturned]
  · simp only [h, ne_eq, not_false_eq_true, if_true, save_certificate_step,
      StorePc.isReturned]

/-- Three steps of a worker take it out of `save_certificate`, whatever the file system
does. -/
theorem save_certificate_step_returns (env : SaveEnv) (data : Bytes) (path : CStr)
    (overwrite : Bool) (fs : FileSys) (pc : StorePc) :
    (save_certificate_step env data path overwrite
        (save_certificate_step env data path overwrite
          (save_certificate_step env data path overwrite fs pc).1
          (save_certificate_step env data path overwrite fs pc).2).1
        (save_certificate_step env data path overwrite
          (save_certificate_step env data path overwrite fs pc).1
          (save_certificate_step env data path overwrite fs pc).2).2).2.isReturned
      = true := by
  cases pc with
  | opening =>
    simp only [save_certificate_step]
    cases fopen fs path (if overwrite then Mode.w else Mode.wx) with
    | error e =>
      dsimp only
      by_cases h : e = Errno.EEXIST ∧ overwrite = false
      · simp only [h, and_self, if_true, save_certificate_step, StorePc.isReturned]
      · simp only [h, if_false, save_certificate_step, StorePc.isReturned]
    | ok fs1 => exact save_certificate_step_writing env data path overwrite fs1
  | writing =>
    have h := save_certificate_step_writing env data path overwrite fs
    rw [save_certificate_step_returned env data path overwrite _ _ h]
    exact h
  | closing buffered r dg => rfl
  | returned r dg => rfl

/-- After three more steps of each worker both have returned. -/
theorem StoreRace.run_completes (env : SaveEnv) (data : Bytes) (path : CStr)
    (s : StoreRace) :
    (s.run env data path [false, false, false, true, true, true]).done := by
  obtain ⟨fs, a, b⟩ := s
  simp only [StoreRace.run, List.foldl_cons, List.foldl_nil, StoreRace.step_first,
    StoreRace.step_second]
  refine ⟨save_certificate_step_returns env data path false fs a, ?_⟩
  exact save_certificate_step_returns env data path false _ b


/-- Claim C12, refuted as stated. The content address of the sample certificate already
exists and holds the one byte `9`, not the PEM bytes `1, 2, 3`.  Two workers store the
certificate with `overwrite = false`; the only file operations are the two `fopen`
calls, and both fail because the path exists.  After the interleaving in which the first
worker opens and then the second, both have returned `0`, and the file still holds the
byte `9`: it does not hold the complete encoded bytes. -/
theorem save_certificate_race_keeps_existing_file :
    sampleSaveEnv.PEM_write_bio_X509 ⟨0⟩ = some [1, 2, 3]
    ∧ sampleSaveEnv.PEM_write_bio_X509 ⟨1⟩ = some [1, 2, 3]
    ∧ (save_certificate sampleSaveEnv storedFs ⟨0⟩ "out".toList false 1).opened
        = some (contentPath "out".toList sampleDigest, Mode.wx)
    ∧ (save_certificate sampleSaveEnv storedFs ⟨1⟩ "out".toList false 2).opened
        = some (contentPath "out".toList sampleDigest, Mode.wx)
    ∧ fopen storedFs (contentPath "out".toList sampleDigest) Mode.wx
        = Except.error Errno.EEXIST
    ∧ ((StoreRace.start storedFs).run sampleSaveEnv [1, 2, 3]
        (contentPath "out".toList sampleDigest) [false, true]).done
    ∧ ((StoreRace.start storedFs).run sampleSaveEnv [1, 2, 3]
        (contentPath "out".toList sampleDigest) [false, true]).first.result = some 0
    ∧ ((StoreRace.start storedFs).run sampleSaveEnv [1, 2, 3]
        (contentPath "out".toList sampleDigest) [false, true]).second.result = some 0
    ∧ ((StoreRace.start storedFs).run sampleSaveEnv [1, 2, 3]
        (contentPath "out".toList sampleDigest) [false, true]).fs.files
        (contentPath "out".toList sampleDigest) = some [9]
    ∧ (save_certificate sampleSaveEnv
        (save_certificate sampleSaveEnv storedFs ⟨0⟩ "out".toList false 1).fs
        ⟨1⟩ "out".toList false 2).fs.files (contentPath "out".toList sampleDigest)
        = some [9] := by
  refine ⟨rfl, rfl, by decide, by decide, rfl, by decide, by decide, by decide, by decide,
    by decide⟩

/-- Claim C12, amended. Two workers call `save_certificate` with `overwrite = false`, the
same output directory, and certificates with the same PEM bytes `data` (digest `d`); both
calls reach line 63 with the same bytes and the same path, the content address, and from
there each is the `fopen` step, the `fwrite` step and the `fclose` step (three steps of
one worker alone are lines 63-89).  The path is not
denied, `fwrite` takes all bytes and `fclose` brings all of them to the file.  Then for
every interleaving `sched` of the steps of the two workers after which both have
returned: both calls returned `0`; no file but the one at the content address was
touched; when that file did not exist before, it now holds exactly `data`, one worker
reports it saved and the other reports that it already exists; when it existed before,
the file system is as it was and both workers report that it already exists; so the file
holds exactly `data` afterwards unless it existed before with other bytes.  And every
interleaving comes to such an end: after three more steps of each worker both have
returned. -/
theorem save_certificate_race (env : SaveEnv) (fs0 : FileSys) (certA certB : X509)
    (output_dir : CStr) (idA idB : Int) (data : Bytes) (d : Digest) (sched : List Bool)
    (hbio : env.BIO_new = true)
    (hA : env.PEM_write_bio_X509 certA = some data)
    (hB : env.PEM_write_bio_X509 certB = some data)
    (hsha : env.SHA256 data = some d)
    (hfit : (contentPath output_dir d).length + 1 ≤ MAX_PATH_LENGTH)
    (hden : fs0.denied (contentPath output_dir d) = false)
    (hwr : data.length ≤ env.fwrite_count data)
    (hfl : data.length ≤ env.fclose_flushed data)
    (hdone : ((StoreRace.start fs0).run env data (contentPath output_dir d) sched).done) :
    (∀ fs : FileSys,
        save_certificate env fs certA output_dir false idA
          = save_certificate_store env fs data (contentPath output_dir d) false
        ∧ save_certificate env fs certB output_dir false idB
          = save_certificate_store env fs data (contentPath output_dir d) false
        ∧ ((StoreRace.start fs).run env data (contentPath output_dir d)
            [false, false, false]).fs
          = (save_certificate_store env fs data (contentPath output_dir d) false).fs
        ∧ ((StoreRace.start fs).run env data (contentPath output_dir d)
            [false, false, false]).first
          = StorePc.returned
              (save_certificate_store env fs data (contentPath output_dir d) false).result
              (save_certificate_store env fs data (contentPath output_dir d) false).diag)
    ∧ (((StoreRace.start fs0).run env data (contentPath output_dir d) sched).first.result
          = some 0
        ∧ ((StoreRace.start fs0).run env data (contentPath output_dir d) sched).second.result
          = some 0)
    ∧ (∀ q, q ≠ contentPath output_dir d →
        ((StoreRace.start fs0).run env data (contentPath output_dir d) sched).fs.files q
          = fs0.files q)
    ∧ (fs0.files (contentPath output_dir d) = none →
        ((StoreRace.start fs0).run env data (contentPath output_dir d) sched).fs.files
            (contentPath output_dir d) = some data
        ∧ ((((StoreRace.start fs0).run env data (contentPath output_dir d) sched).first
              = StorePc.returned 0 (SaveDiag.saved (contentPath output_dir d))
            ∧ ((StoreRace.start fs0).run env data (contentPath output_dir d) sched).second
              = StorePc.returned 0 (SaveDiag.alreadyExists (contentPath output_dir d)))
          ∨ (((StoreRace.start fs0).run env data (contentPath output_dir d) sched).second
              = StorePc.returned 0 (SaveDiag.saved (contentPath output_dir d))
            ∧ ((StoreRace.start fs0).run env data (contentPath output_dir d) sched).first
              = StorePc.returned 0 (SaveDiag.alreadyExists (contentPath output_dir d)))))
    ∧ ((fs0.files (contentPath output_dir d)).isSome = true →
        ((StoreRace.start fs0).run env data (contentPath output_dir d) sched).fs = fs0
        ∧ ((StoreRace.start fs0).run env data (contentPath output_dir d) sched).first
          = StorePc.returned 0 (SaveDiag.alreadyExists (contentPath output_dir d))
        ∧ ((StoreRace.start fs0).run env data (contentPath output_dir d) sched).second
          = StorePc.returned 0 (SaveDiag.alreadyExists (contentPath output_dir d)))
    ∧ (fs0.files (contentPath output_dir d) = none
        ∨ fs0.files (contentPath output_dir d) = some data →
        ((StoreRace.start fs0).run env data (contentPath output_dir d) sched).fs.files
            (contentPath output_dir d) = some data)
    ∧ (∀ sched0 : List Bool,
        ((StoreRace.start fs0).run env data (contentPath output_dir d)
          (sched0 ++ [false, false, false, true, true, true])).done) := by
  have hinv := StoreRace.race_run_inv env data (contentPath output_dir d) fs0 hden hwr hfl
    sched _ (StoreRace.race_start_inv data (contentPath output_dir d) fs0)
  obtain ⟨h1, h2, h3, h4⟩ :=
    StoreRace.inv_done data (contentPath output_dir d) fs0 _ hinv hdone
  refine ⟨fun fs => ⟨?_, ?_, ?_, ?_⟩, h1, h2, h3, h4, ?_, ?_⟩
  · exact save_certificate_at_fopen env fs certA output_dir false idA data d hbio hA hsha hfit
  · exact save_certificate_at_fopen env fs certB output_dir false idB data d hbio hB hsha hfit
  · simp only [StoreRace.run, StoreRace.start, List.foldl_cons, List.foldl_nil,
      StoreRace.step_first]
    rw [save_certificate_step_thrice env fs data (contentPath output_dir d) false]
  · simp only [StoreRace.run, StoreRace.start, List.foldl_cons, List.foldl_nil,
      StoreRace.step_first]
    rw [save_certificate_step_thrice env fs data (contentPath output_dir d) false]
  · intro h
    rcases h with h | h
    · exact (h3 h).1
    · rw [(h4 (by rw [h]; rfl)).1]
      exact h
  · intro sched0
    unfold StoreRace.run
    rw [List.foldl_append]
    exact StoreRace.run_completes env data (contentPath output_dir d) _

/-- Witness for C12: on the empty file system the first worker opens, the second worker's
`fopen` meets the file, the first writes and closes; both return `0` and the file holds
the three bytes. -/
theorem save_certificate_race_witness :
    ((StoreRace.start emptyFs).run sampleSaveEnv [1, 2, 3]
        (contentPath "out".toList sampleDigest) [false, true, false, false]).done
    ∧ ((StoreRace.start emptyFs).run sampleSaveEnv [1, 2, 3]
        (contentPath "out".toList sampleDigest) [false, true, false, false]).first.result
      = some 0
    ∧ ((StoreRace.start emptyFs).run sampleSaveEnv [1, 2, 3]
        (contentPath "out".toList sampleDigest) [false, true, false, false]).second.result
      = some 0
    ∧ ((StoreRace.start emptyFs).run sampleSaveEnv [1, 2, 3]
        (contentPath "out".toList sampleDigest) [false, true, false, false]).fs.files
        (contentPath "out".toList sampleDigest) = some [1, 2, 3] :=
  have h := save_certificate_race sampleSaveEnv emptyFs ⟨0⟩ ⟨1⟩ "out".toList 1 2 [1, 2, 3]
    sampleDigest [false, true, false, false] rfl rfl rfl rfl (by decide) rfl (by decide)
    (by decide) (by decide)
  ⟨by decide, h.2.1.1, h.2.1.2, h.2.2.2.2.2.1 (Or.inl rfl)⟩

end DownloadCert
